import Mathlib

/-!
Verification development for the CareerNav ingestion-and-analytics pipeline.

The Python sources under `backend/app` are shallowly embedded here:
strings are lists of Unicode code points, dictionaries are association
lists, datetimes are integer timestamps, and the Mongo document store is
a list of documents threaded explicitly through the operations.
-/

namespace CareerNav

/-- Strings are modelled as lists of Unicode code points. -/
abbrev Str := List Nat

/-- Code points of a Lean string literal, used to transcribe the
Python string literals of the source. -/
def codes (s : String) : Str := s.data.map Char.toNat

/-- Whitespace recognised by Python `str.strip()` (ASCII range). -/
def isWs (c : Nat) : Bool :=
  c == 32 || c == 9 || c == 10 || c == 11 || c == 12 || c == 13

/-- Python `str.strip()`: drop leading and trailing whitespace. -/
def pyStrip (s : Str) : Str :=
  ((s.dropWhile isWs).reverse.dropWhile isWs).reverse

/-- Lower-casing of one code point (Python `str.lower()` restricted to
the ASCII range, which covers every character of the static tables). -/
def lowerCode (c : Nat) : Nat := if 65 ≤ c && c ≤ 90 then c + 32 else c

/-- Python `str.lower()`. -/
def pyLower (s : Str) : Str := s.map lowerCode

/-- The `'-'` and `'_'`, the separators replaced by spaces in
`SkillExtractor.map_technology_slugs`'s fallback. -/
def isSep (c : Nat) : Bool := c == 45 || c == 95

/-- The `slug.replace('-', ' ').replace('_', ' ')`. -/
def sepToSpace (s : Str) : Str :=
  s.map (fun c => if isSep c then 32 else c)

/-- First-match lookup in an association table of strings, modelling a
Python `dict.get` (the transcribed dict literals have pairwise distinct
keys, so first-match agrees with dict semantics). -/
def lookupTable (tbl : List (Str × Str)) (k : Str) : Option Str :=
  match tbl with
  | [] => none
  | p :: rest => if p.1 == k then some p.2 else lookupTable rest k

/-- Python substring containment `pat in s`. -/
def isSubstr (pat : Str) : Str → Bool
  | [] => pat.isEmpty
  | c :: rest => pat.isPrefixOf (c :: rest) || isSubstr pat rest

/-- Lexicographic order on code-point strings: Python `<` on `str`. -/
def ltStr : Str → Str → Bool
  | [], [] => false
  | [], _ :: _ => true
  | _ :: _, [] => false
  | a :: s, b :: t => if a < b then true else if b < a then false else ltStr s t

/-- Ordered duplicate-dropping insertion, the building block used to
model Python `sorted(set(...))`. -/
def insertStr (a : Str) : List Str → List Str
  | [] => [a]
  | b :: l =>
    if a = b then b :: l
    else if ltStr a b then a :: b :: l
    else b :: insertStr a l

/-- Python `sorted(set(xs))`: the distinct elements in increasing order. -/
def sortDedup (l : List Str) : List Str := l.foldr insertStr []

/-- The `SkillExtractor.SKILL_CANONICAL_MAP`: canonical aliases applied as a
second pass to collapse near-duplicates. -/
def SKILL_CANONICAL_MAP : List (Str × Str) := [
  (codes "cpp", codes "c++"),
  (codes "csharp", codes "c#"),
  (codes "dotnet", codes ".net"),
  (codes "aspnet", codes "asp.net"),
  (codes "sqlserver", codes "sql server"),
  (codes "node-js", codes "nodejs"),
  (codes "js", codes "javascript"),
  (codes "ts", codes "typescript")]

/-- The `SkillExtractor.TECHNOLOGY_SLUG_MAP`: the static slug → canonical
name table (duplicate dict keys of the Python literal, which all carry
identical values, are transcribed once). -/
def TECHNOLOGY_SLUG_MAP : List (Str × Str) := [
  (codes "react", codes "react"),
  (codes "reactjs", codes "react"),
  (codes "react-js", codes "react"),
  (codes "vue-js", codes "vue"),
  (codes "vuejs", codes "vue"),
  (codes "angular", codes "angular"),
  (codes "angularjs", codes "angular"),
  (codes "nextjs", codes "next.js"),
  (codes "next-js", codes "next.js"),
  (codes "nuxtjs", codes "nuxt.js"),
  (codes "nuxt-js", codes "nuxt.js"),
  (codes "nodejs", codes "nodejs"),
  (codes "node-js", codes "nodejs"),
  (codes "expressjs", codes "express"),
  (codes "express-js", codes "express"),
  (codes "nestjs", codes "nestjs"),
  (codes "django", codes "django"),
  (codes "flask", codes "flask"),
  (codes "fastapi", codes "fastapi"),
  (codes "spring", codes "spring"),
  (codes "spring-boot", codes "spring boot"),
  (codes "laravel", codes "laravel"),
  (codes "rails", codes "rails"),
  (codes "dotnet", codes ".net"),
  (codes "csharp", codes "c#"),
  (codes "cpp", codes "c++"),
  (codes "cplusplus", codes "c++"),
  (codes "java", codes "java"),
  (codes "python", codes "python"),
  (codes "go", codes "go"),
  (codes "golang", codes "go"),
  (codes "rust", codes "rust"),
  (codes "kotlin", codes "kotlin"),
  (codes "swift", codes "swift"),
  (codes "sql", codes "sql"),
  (codes "mysql", codes "mysql"),
  (codes "postgresql", codes "postgresql"),
  (codes "postgres", codes "postgresql"),
  (codes "mongodb", codes "mongodb"),
  (codes "dynamodb", codes "dynamodb"),
  (codes "redis", codes "redis"),
  (codes "elasticsearch", codes "elasticsearch"),
  (codes "snowflake", codes "snowflake"),
  (codes "bigquery", codes "bigquery"),
  (codes "redshift", codes "redshift"),
  (codes "aws", codes "aws"),
  (codes "amazon-web-services", codes "aws"),
  (codes "aws-lambda", codes "aws lambda"),
  (codes "aws-step-functions", codes "aws step functions"),
  (codes "amazon-api-gateway", codes "api gateway"),
  (codes "amazon-ecs", codes "aws ecs"),
  (codes "amazon-s3", codes "aws s3"),
  (codes "azure", codes "azure"),
  (codes "microsoft-azure", codes "azure"),
  (codes "gcp", codes "gcp"),
  (codes "google-cloud-platform", codes "gcp"),
  (codes "kubernetes", codes "kubernetes"),
  (codes "docker", codes "docker"),
  (codes "terraform", codes "terraform"),
  (codes "ansible", codes "ansible"),
  (codes "jenkins", codes "jenkins"),
  (codes "github-actions", codes "github actions"),
  (codes "github", codes "github"),
  (codes "gitlab", codes "gitlab"),
  (codes "gitlab-ci", codes "gitlab ci"),
  (codes "ci-cd", codes "ci/cd"),
  (codes "celery", codes "celery"),
  (codes "rabbitmq", codes "rabbitmq"),
  (codes "kafka", codes "kafka"),
  (codes "tensorflow", codes "tensorflow"),
  (codes "pytorch", codes "pytorch"),
  (codes "scikit-learn", codes "scikit-learn"),
  (codes "nlp", codes "natural language processing"),
  (codes "ml", codes "machine learning"),
  (codes "ai", codes "artificial intelligence"),
  (codes "power-bi", codes "power bi"),
  (codes "tableau", codes "tableau"),
  (codes "looker", codes "looker"),
  (codes "cypress", codes "cypress"),
  (codes "selenium", codes "selenium"),
  (codes "postman", codes "postman"),
  (codes "jest", codes "jest"),
  (codes "pytest", codes "pytest"),
  (codes "junit", codes "junit"),
  (codes "gradle", codes "gradle"),
  (codes "maven", codes "maven"),
  (codes "unity-3d", codes "unity"),
  (codes "databricks", codes "databricks"),
  (codes "delta-lake", codes "delta lake"),
  (codes "apache-spark-sql", codes "spark"),
  (codes "spark", codes "spark"),
  (codes "sidekiq", codes "sidekiq"),
  (codes "netsuite", codes "netsuite"),
  (codes "phrase", codes "phrase"),
  (codes "greenhouse", codes "greenhouse"),
  (codes "workday", codes "workday"),
  (codes "confluence", codes "confluence"),
  (codes "jira", codes "jira"),
  (codes "lever", codes "lever"),
  (codes "xml-format", codes "xml"),
  (codes "json", codes "json"),
  (codes "axios", codes "axios"),
  (codes "enzyme", codes "enzyme"),
  (codes "jasmine", codes "jasmine"),
  (codes "karma-runner", codes "karma"),
  (codes "casperjs", codes "casperjs"),
  (codes "versionone", codes "versionone"),
  (codes "bootstrap", codes "bootstrap"),
  (codes "sass", codes "sass"),
  (codes "serverless", codes "serverless"),
  (codes "php", codes "php"),
  (codes "perl", codes "perl"),
  (codes "ruby", codes "ruby"),
  (codes "javascript", codes "javascript"),
  (codes "typescript", codes "typescript"),
  (codes "microsoft-typescript", codes "typescript"),
  (codes "mariadb", codes "mariadb"),
  (codes "cassandra", codes "cassandra"),
  (codes "apache-cassandra", codes "cassandra"),
  (codes "clickhouse", codes "clickhouse"),
  (codes "grafana", codes "grafana"),
  (codes "kibana", codes "kibana"),
  (codes "superset", codes "superset"),
  (codes "d3", codes "d3"),
  (codes "mabl", codes "mabl"),
  (codes "playwright", codes "playwright"),
  (codes "ios", codes "ios"),
  (codes "turning", codes "swift"),
  (codes "solidworks", codes "solidworks"),
  (codes "sap", codes "sap"),
  (codes "forge", codes "forge"),
  (codes "vast-data", codes "vast"),
  (codes "component", codes "react"),
  (codes "event-hub", codes "event hubs"),
  (codes "azure-service-bus", codes "azure service bus"),
  (codes "azure-storage", codes "azure storage"),
  (codes "azure-sql-database", codes "azure sql"),
  (codes "azure-synapse", codes "azure synapse"),
  (codes "azure-synapse-analytics", codes "azure synapse"),
  (codes "microsoft-azure-storage", codes "azure storage"),
  (codes "microsoft-power-apps", codes "power apps"),
  (codes "microsoft-dynamics-365-business-central", codes "dynamics 365"),
  (codes "microsoft-power-platform", codes "power platform"),
  (codes "microsoft-azure-logic-apps", codes "azure logic apps"),
  (codes "azure-devops", codes "azure devops"),
  (codes "dynamics-crm", codes "dynamics crm"),
  (codes "powershell", codes "powershell"),
  (codes "aws-data-lake-storage", codes "aws data lake"),
  (codes "google-cloud-storage", codes "google cloud storage"),
  (codes "aws-codepipeline", codes "aws codepipeline"),
  (codes "spring-data", codes "spring data"),
  (codes "spring-security", codes "spring security"),
  (codes "spring-cloud", codes "spring cloud"),
  (codes "hibernate", codes "hibernate")]

/-- The second canonical-alias pass:
`SKILL_CANONICAL_MAP.get(canonical, canonical)`. -/
def canonPass (s : Str) : Str :=
  match lookupTable SKILL_CANONICAL_MAP s with
  | some v => v
  | none => s

/-- The `TECHNOLOGY_SLUG_MAP.get(slug_normalized)` with the fallback
`slug_normalized.replace('-', ' ').replace('_', ' ')`. -/
def slugCanonical (n : Str) : Str :=
  match lookupTable TECHNOLOGY_SLUG_MAP n with
  | some v => v
  | none => sepToSpace n

/-- The body of the per-slug loop of
`SkillExtractor.map_technology_slugs`: skip falsy slugs, strip and
lower-case, look up the slug table, fall back to separator replacement,
then apply the canonical-alias pass. `none` means the slug contributed
nothing to the result set. -/
def mapSlug (slug : Str) : Option Str :=
  if slug.isEmpty then none
  else if (pyLower (pyStrip slug)).isEmpty then none
  else some (canonPass (slugCanonical (pyLower (pyStrip slug))))

/-- The `SkillExtractor.map_technology_slugs`: the mapped slugs as a sorted
duplicate-free list (`sorted(mapped)` over the accumulated set). -/
def mapTechnologySlugs (slugs : List Str) : List Str :=
  if slugs.isEmpty then []
  else sortDedup (slugs.filterMap mapSlug)

/-- A slug is edge-clean when its stripped lower-cased form neither
begins nor ends with one of the separators `'-'`/`'_'`. -/
def edgeOk (slug : Str) : Bool :=
  (match (pyLower (pyStrip slug)).head? with
   | some a => !(isSep a)
   | none => true) &&
  (match (pyLower (pyStrip slug)).getLast? with
   | some b => !(isSep b)
   | none => true)

/-- Strict sortedness: each element is lexicographically below the next. -/
def StrictSorted (l : List Str) : Prop :=
  List.Chain' (fun a b => ltStr a b = true) l

/-! ## Dictionaries and JSON-like values

Python dict payloads are association lists over `String` keys.  Values
the pipeline never inspects structurally are carried by the opaque
`jatom` constructor, which records only an identity tag and its Python
truthiness. -/

inductive JVal : Type
  | jnull : JVal
  | jbool : Bool → JVal
  | jnum : Int → JVal
  | jstr : Str → JVal
  | jstrs : List Str → JVal
  | jatom : Nat → Bool → JVal
  deriving DecidableEq, Repr

open JVal

/-- Python truthiness of a value. -/
def truthyJ : JVal → Bool
  | jnull => false
  | jbool b => b
  | jnum n => n != 0
  | jstr s => !s.isEmpty
  | jstrs l => !l.isEmpty
  | jatom _ t => t

/-- A Python dict. -/
abbrev PyDict := List (String × JVal)

/-- The `key in payload`. -/
def hasKey (p : PyDict) (k : String) : Bool := p.any (fun e => e.1 == k)

/-- The `payload.get(key)`, `None` when absent (first occurrence; the
transcribed dicts have pairwise-distinct keys). -/
def pget (p : PyDict) (k : String) : JVal :=
  match p with
  | [] => jnull
  | e :: rest => if e.1 == k then e.2 else pget rest k

/-- The `payload.setdefault(key, value)`. -/
def setdefault (p : PyDict) (k : String) (v : JVal) : PyDict :=
  if hasKey p k then p else p ++ [(k, v)]

/-- The `payload[key] = value`: overwrite in place, else append. -/
def pset (p : PyDict) (k : String) (v : JVal) : PyDict :=
  match p with
  | [] => [(k, v)]
  | e :: rest => if e.1 == k then (k, v) :: rest else e :: pset rest k v

/-! ## TheirStackClient (`theirstack_client.py`)

The transport is a function from the (1-based) attempt number to the
outcome of that HTTP POST, so a flaky upstream is any such function. -/

/-- One HTTP attempt either yields a response with a status code or
fails at the network level (`httpx.RequestError`). -/
inductive AttemptResult : Type
  | respond : Nat → AttemptResult
  | netFail : AttemptResult
  deriving DecidableEq, Repr

/-- The client's error taxonomy (`TheirStackAuthenticationError`,
`TheirStackRetryableError`, bare `TheirStackClientError`). -/
inductive TSError : Type
  | authentication : TSError
  | retryable : TSError
  | clientErr : TSError
  deriving DecidableEq, Repr

/-- The body of `_post_with_retry` for one attempt: network errors are
retryable; 401/403 authentication; 429/5xx retryable; other 4xx client
errors; anything else is returned. -/
def attemptOutcome (r : AttemptResult) : Except TSError Nat :=
  match r with
  | .netFail => .error .retryable
  | .respond st =>
    if st = 401 ∨ st = 403 then .error .authentication
    else if st = 429 ∨ (500 ≤ st ∧ st < 600) then .error .retryable
    else if 400 ≤ st ∧ st < 500 then .error .clientErr
    else .ok st

/-- The `wait_exponential(multiplier=1, min=1, max=10)` of tenacity: the
wait (in seconds) after the failed attempt numbered `i` is
`max(1, min(2^(i-1), 10))`. -/
def waitExp (i : Nat) : Nat := max 1 (min (2 ^ (i - 1)) 10)

deriving instance DecidableEq for Except

/-- The trace of one `_post_with_retry` call: the final outcome, the
number of attempts actually made (network requests issued), and the
backoff waits slept between attempts. -/
structure RetryTrace : Type where
  result : Except TSError Nat
  attempts : Nat
  waits : List Nat
  deriving DecidableEq, Repr

/-- The tenacity retry loop: `fuel` is the number of retries still
allowed (`stop_after_attempt` bound minus attempts already made), `i`
the current attempt number.  Only `retryable` errors are retried
(`retry_if_exception_type(TheirStackRetryableError)`); with `reraise`
the last error is raised after exhaustion. -/
def runRetry (transport : Nat → AttemptResult) : Nat → Nat → RetryTrace
  | fuel, i =>
    match attemptOutcome (transport i) with
    | .ok st => ⟨.ok st, 1, []⟩
    | .error e =>
      if e = .retryable then
        match fuel with
        | 0 => ⟨.error e, 1, []⟩
        | fuel' + 1 =>
          let rest := runRetry transport fuel' (i + 1)
          ⟨rest.result, rest.attempts + 1, waitExp i :: rest.waits⟩
      else ⟨.error e, 1, []⟩

/-- The `_post_with_retry` decorated with
`stop=stop_after_attempt(max_retries)`: at most `max_retries` total
attempts starting at attempt 1. -/
def postWithRetry (transport : Nat → AttemptResult) (maxRetries : Nat) :
    RetryTrace :=
  runRetry transport (maxRetries - 1) 1

/-- The `_validate_payload`: non-empty and at least one of the three
temporal filter keys present with a non-`None` value, else `ValueError`. -/
def validatePayload (p : PyDict) : Bool :=
  !p.isEmpty &&
    ["posted_at_max_age_days", "posted_at_gte", "posted_at_lte"].any
      (fun k => hasKey p k && pget p k != jnull)

/-- The pagination-default block of `search_jobs`: set `page = 1` when
neither `page` nor `offset` is present, then default `limit` to
`settings.max_jobs_per_search`. -/
def preparePayload (maxJobsPerSearch : Int) (p : PyDict) : PyDict :=
  let p' := if !hasKey p "page" && !hasKey p "offset"
            then setdefault p "page" (jnum 1) else p
  setdefault p' "limit" (jnum maxJobsPerSearch)

/-- Outcome of one `search_jobs` call: `invalid` is the local
`ValueError` (raised before any network activity), `ok`/`fail` record
the payload actually sent and the attempts consumed. -/
inductive SearchOutcome : Type
  | invalid : SearchOutcome
  | ok : PyDict → Nat → Nat → SearchOutcome
  | fail : TSError → Nat → SearchOutcome
  deriving DecidableEq, Repr

/-- The `search_jobs`: validate, apply pagination defaults, then POST with
retry.  Authentication errors are re-raised as authentication errors and
retryable errors re-raised unchanged, so the outcome category is that of
`_post_with_retry`. -/
def searchJobs (maxJobsPerSearch : Int) (maxRetries : Nat)
    (transport : Nat → AttemptResult) (p : PyDict) : SearchOutcome :=
  if !validatePayload p then .invalid
  else
    let sent := preparePayload maxJobsPerSearch p
    let tr := postWithRetry transport maxRetries
    match tr.result with
    | .ok st => .ok sent st tr.attempts
    | .error e => .fail e tr.attempts

/-- Network requests issued by one `search_jobs` call. -/
def networkCalls : SearchOutcome → Nat
  | .invalid => 0
  | .ok _ _ a => a
  | .fail _ a => a

/-! ## JobPosting.upsert_job (`models/job_posting.py`)

The Mongo collection is a list of documents; `find_one({k: v})` is the
first document whose field `k` equals `v`. -/

abbrev Doc := PyDict
abbrev Store := List Doc

/-- Index of the first document matching `find_one({k: v})`. -/
def findIdxByField (store : Store) (k : String) (v : JVal) : Option Nat :=
  match store with
  | [] => none
  | d :: rest =>
    if pget d k == v then some 0
    else (findIdxByField rest k v).map (· + 1)

/-- The `setattr` loop of `upsert_job`: every key of the payload except
`scraped_at` overwrites the document's field. -/
def applyUpdate (doc : Doc) (jd : PyDict) : Doc :=
  jd.foldl (fun d e => if e.1 == "scraped_at" then d else pset d e.1 e.2) doc

/-- The `JobPosting.upsert_job`: copy the payload, stamp `updated_at`, look
up by `job_id` when truthy, fall back to `url` when truthy; update every
field but `scraped_at` on a hit, insert the stamped payload otherwise. -/
def upsertJob (store : Store) (jobData : PyDict) (now : JVal) : Store :=
  let jd := pset jobData "updated_at" now
  let jobId := pget jd "job_id"
  let url := pget jd "url"
  let hit :=
    match (if truthyJ jobId then findIdxByField store "job_id" jobId
           else none) with
    | some i => some i
    | none => if truthyJ url then findIdxByField store "url" url else none
  match hit with
  | some i => store.set i (applyUpdate (store.getD i []) jd)
  | none => store ++ [jd]

/-- Pairwise-distinct keys, the invariant of a Python dict. -/
def NodupKeys (p : PyDict) : Prop := (p.map Prod.fst).Nodup

/-- Example posting payload: first submission. -/
def p1ex : PyDict :=
  [("job_id", jstr (codes "j1")), ("url", jstr (codes "u1")),
   ("title", jstr (codes "A")), ("scraped_at", jnum 100)]

/-- Example posting payload: second submission, same `job_id`. -/
def p2ex : PyDict :=
  [("job_id", jstr (codes "j1")), ("url", jstr (codes "u1")),
   ("title", jstr (codes "B")), ("scraped_at", jnum 200)]

/-- Example posting payload with no `job_id` but a previously-seen url. -/
def p3ex : PyDict :=
  [("url", jstr (codes "u1")), ("title", jstr (codes "C")),
   ("scraped_at", jnum 300)]

/-! ## JobCollectionService (`job_collection_service.py`)

Raw upstream jobs are dicts whose values may be plain JSON values, a
list of location items, or a nested dict (`company_object`).  The
document store is abstract here: the per-role loop is parametric in the
store type and in the upsert operation it threads through. -/

/-- One element of a raw job's `locations` list: a string, a dict, or
some other value carrying only its truthiness. -/
inductive LocItem : Type
  | ls : Str → LocItem
  | lobj : List (String × JVal) → LocItem
  | latom : Bool → LocItem
  deriving DecidableEq, Repr

/-- A raw upstream field value. -/
inductive RVal : Type
  | rv : JVal → RVal
  | rlist : List LocItem → RVal
  | robj : List (String × JVal) → RVal
  deriving DecidableEq, Repr

/-- A raw upstream job, and equally the mapped payload `_map_job`
builds (a dict of the same value shapes). -/
abbrev RawJob := List (String × RVal)

/-- Python truthiness of a raw value. -/
def truthyR : RVal → Bool
  | .rv v => truthyJ v
  | .rlist l => !l.isEmpty
  | .robj d => !d.isEmpty

/-- Python truthiness of a locations-list element. -/
def truthyL : LocItem → Bool
  | .ls s => !s.isEmpty
  | .lobj d => !d.isEmpty
  | .latom t => t

/-- The `job.get(key)`, `None` when absent. -/
def rget (j : RawJob) (k : String) : RVal :=
  match j with
  | [] => .rv jnull
  | e :: rest => if e.1 == k then e.2 else rget rest k

/-- The `key in job`. -/
def hasKeyR (j : RawJob) (k : String) : Bool := j.any (fun e => e.1 == k)

/-- The `job.get(key, default)`. -/
def rgetD (j : RawJob) (k : String) (d : RVal) : RVal :=
  if hasKeyR j k then rget j k else d

/-- Python `or` on raw values: first operand when truthy, else second. -/
def rOr (a b : RVal) : RVal := if truthyR a then a else b

/-- Python `or` on JSON values. -/
def jOr (a b : JVal) : JVal := if truthyJ a then a else b

/-- The `str(value)` for plain JSON values.  Opaque atoms and structured
values have no printable form in the model; they are rendered as fixed
non-empty placeholders, and no theorem depends on that text. -/
def pyStrJ : JVal → Str
  | jnull => codes "None"
  | jbool true => codes "True"
  | jbool false => codes "False"
  | jnum n => codes (toString n)
  | jstr s => s
  | jstrs _ => codes "[...]"
  | jatom _ _ => codes "<object>"

/-- The `str(value)` for raw values. -/
def pyStrR : RVal → Str
  | .rv v => pyStrJ v
  | .rlist _ => codes "[...]"
  | .robj _ => codes "\x7b...\x7d"

/-- The `job.get("technology_slugs") or []`.  Upstream sends a list of
strings; any other shape would raise inside `map_technology_slugs`, so
only string lists are modelled. -/
def techSlugsOf (job : RawJob) : List Str :=
  match rget job "technology_slugs" with
  | .rv (jstrs l) => l
  | _ => []

/-- The `job.get("company_object") or {}`; a non-dict value would raise at
`company_obj.get(...)`, so only dicts are modelled. -/
def companyObjOf (job : RawJob) : List (String × JVal) :=
  match rget job "company_object" with
  | .robj d => d
  | _ => []

/-- The locations-normalization block of `_map_job`: a bare string
becomes a singleton, a list keeps strings and the first non-empty of
`name`/`city`/`state`/`country` for dict entries, anything else
contributes nothing. -/
def locationsOf (job : RawJob) : List JVal :=
  match rget job "locations" with
  | .rv (jstr s) => if s.isEmpty then [] else [jstr s]
  | .rv (jstrs l) => (l.filter (fun s => !s.isEmpty)).map jstr
  | .rlist l =>
    l.foldr (fun loc acc =>
      if !truthyL loc then acc
      else match loc with
        | .ls s => jstr s :: acc
        | .lobj d =>
          let name := jOr (jOr (jOr (pget d "name") (pget d "city"))
            (pget d "state")) (pget d "country")
          if truthyJ name then name :: acc else acc
        | .latom _ => acc) []
  | _ => []

/-- The `", ".join(strs)`. -/
def joinWith (sep : Str) : List Str → Str
  | [] => []
  | [x] => x
  | x :: y :: rest => x ++ sep ++ joinWith sep (y :: rest)

/-- The `date_posted.replace("Z", "+00:00")`. -/
def replaceZ (s : Str) : Str :=
  s.flatMap (fun c => if c == 90 then codes "+00:00" else [c])

/-- The dict literal `_map_job` builds, before the identifier guard.
`parseIso` abstracts `datetime.fromisoformat` (an external library
call); raw jobs coming from JSON never contain datetime objects, so the
non-string `date_posted` branch is always `None`. -/
def mappedFields (parseIso : Str → Option Int) (role searchLocation : Str)
    (now : Int) (job : RawJob) : RawJob :=
  let description := rOr (rOr (rget job "description")
    (rget job "job_description")) (.rv (jstr []))
  let technology_slugs := techSlugsOf job
  let skills := mapTechnologySlugs technology_slugs
  let company_obj := companyObjOf job
  let location_label :=
    joinWith (codes ", ") ((locationsOf job).filter truthyJ |>.map pyStrJ)
  let dp := rOr (rget job "posted_at") (rget job "date_posted")
  let date_posted : JVal :=
    match dp with
    | .rv (jstr s) =>
      match parseIso (replaceZ s) with
      | some n => jnum n
      | none => jnull
    | _ => jnull
  let coordinates := rOr (rget job "coordinates") (rget job "geo")
  let job_id_raw := rOr (rget job "job_id") (rget job "id")
  let job_id_str : RVal :=
    if job_id_raw = .rv jnull then .rv jnull
    else .rv (jstr (pyStrR job_id_raw))
  [("job_id", job_id_str),
   ("title", rOr (rOr (rget job "job_title") (rget job "title"))
     (.rv (jstr role))),
   ("company", rOr (rOr (.rv (pget company_obj "name"))
     (rget job "company")) (.rv (jstr (codes "Unknown Company")))),
   ("company_domain", rOr (.rv (pget company_obj "domain"))
     (rget job "company_domain")),
   ("location", rOr (.rv (jstr location_label))
     (rgetD job "location" (.rv (jstr (codes "Unknown"))))),
   ("description", description),
   ("skills", .rv (jstrs skills)),
   ("url", rOr (rOr (rget job "job_url") (rget job "url"))
     (rget job "detail_url")),
   ("date_posted", .rv date_posted),
   ("min_annual_salary_usd", rOr (rget job "min_annual_salary_usd")
     (rget job "salary_min_annual_usd")),
   ("max_annual_salary_usd", rOr (rget job "max_annual_salary_usd")
     (rget job "salary_max_annual_usd")),
   ("remote", rget job "remote"),
   ("technology_slugs", .rv (jstrs technology_slugs)),
   ("search_keywords", .rv (jstr role)),
   ("search_location", .rv (jstr searchLocation)),
   ("coordinates", coordinates),
   ("scraped_at", .rv (jnum now))]

/-- The `_map_job`: the mapped dict, or `None` when it carries neither a
truthy `url` nor a truthy `job_id` (rejected before persistence). -/
def mapJob (parseIso : Str → Option Int) (role searchLocation : Str)
    (now : Int) (job : RawJob) : Option RawJob :=
  let mapped := mappedFields parseIso role searchLocation now job
  if !truthyR (rget mapped "url") && !truthyR (rget mapped "job_id")
  then none
  else some mapped

/-- The `_should_skip_job`: suppress React-Native postings for plain React
role queries.  A falsy title never skips; a truthy non-string title
would raise in the source and is not modelled. -/
def shouldSkipJob (role : Str) (jobTitle : RVal) : Bool :=
  match jobTitle with
  | .rv (jstr t) =>
    if t.isEmpty then false
    else
      isSubstr (codes "react") (pyLower role) &&
      !(isSubstr (codes "native") (pyLower role)) &&
      isSubstr (codes "react native") (pyLower t)
  | _ => false

/-- The per-page `for job in data` loop: skip, map, upsert, count, and
break mid-page once the per-role limit is reached. -/
def processJobs {σ : Type} (upsert : σ → RawJob → σ)
    (parseIso : Str → Option Int) (role searchLocation : Str) (now : Int)
    (perRoleLimit : Nat) :
    List RawJob → σ → Nat → σ × Nat
  | [], store, collected => (store, collected)
  | job :: rest, store, collected =>
    if shouldSkipJob role (rOr (rget job "job_title") (rget job "title"))
    then processJobs upsert parseIso role searchLocation now perRoleLimit
      rest store collected
    else
      match mapJob parseIso role searchLocation now job with
      | none => processJobs upsert parseIso role searchLocation now
          perRoleLimit rest store collected
      | some mapped =>
        let store' := upsert store mapped
        if collected + 1 ≥ perRoleLimit then (store', collected + 1)
        else processJobs upsert parseIso role searchLocation now
          perRoleLimit rest store' (collected + 1)

/-- The outcome of one `search_jobs` call inside the role loop. -/
inductive PageResult : Type
  | ok : List RawJob → Option Bool → PageResult
  | authErr : PageResult
  | retryErr : PageResult
  | otherErr : PageResult

/-- Result of one iteration of the per-role `while` body: `stop` ends
the role's pagination, `next` requests the following page. -/
inductive StepResult (σ : Type) : Type
  | stop : σ → Nat → Nat → StepResult σ
  | next : σ → Nat → Nat → StepResult σ

/-- One iteration of the `while total_collected < per_role_limit` body
of `collect_jobs_for_roles`, given the page's outcome: errors break,
empty `data` breaks, then jobs are processed, and the loop breaks when
the limit is reached or `has_more is False`; otherwise the next page is
requested.  `pagesFetched` counts pages with non-empty data. -/
def collectStep {σ : Type} (upsert : σ → RawJob → σ)
    (parseIso : Str → Option Int) (role searchLocation : Str) (now : Int)
    (perRoleLimit : Nat) (pr : PageResult) (store : σ)
    (collected pagesFetched : Nat) : StepResult σ :=
  match pr with
  | .authErr => .stop store collected pagesFetched
  | .retryErr => .stop store collected pagesFetched
  | .otherErr => .stop store collected pagesFetched
  | .ok data hasMore =>
    if data.isEmpty then .stop store collected pagesFetched
    else
      let r := processJobs upsert parseIso role searchLocation now
        perRoleLimit data store collected
      if r.2 ≥ perRoleLimit then .stop r.1 r.2 (pagesFetched + 1)
      else if hasMore = some false then .stop r.1 r.2 (pagesFetched + 1)
      else .next r.1 r.2 (pagesFetched + 1)

/-- The per-role pagination loop, driven by `pagesF` (the upstream's
response per page number) with fuel; returns the final store, the
collected and page counts, and the number of `search_jobs` calls made. -/
def collectRoleLoop {σ : Type} (upsert : σ → RawJob → σ)
    (parseIso : Str → Option Int) (role searchLocation : Str) (now : Int)
    (perRoleLimit : Nat) (pagesF : Nat → PageResult) :
    Nat → Nat → Nat → Nat → σ → σ × Nat × Nat × Nat
  | 0, _, collected, pagesFetched, store =>
    (store, collected, pagesFetched, 0)
  | fuel + 1, page, collected, pagesFetched, store =>
    if collected ≥ perRoleLimit then (store, collected, pagesFetched, 0)
    else
      match collectStep upsert parseIso role searchLocation now
        perRoleLimit (pagesF page) store collected pagesFetched with
      | .stop store' c' pf' => (store', c', pf', 1)
      | .next store' c' pf' =>
        let rest := collectRoleLoop upsert parseIso role searchLocation now
          perRoleLimit pagesF fuel (page + 1) c' pf' store'
        (rest.1, rest.2.1, rest.2.2.1, rest.2.2.2 + 1)

/-- A minimal raw job carrying only an upstream id. -/
def job0ex : RawJob := [("job_id", .rv (jnum 1))]

/-- A raw job with neither an id nor a url. -/
def jobNoIdEx : RawJob := [("title", .rv (jstr (codes "X")))]

/-- Store model used in concrete runs: the list of upserted payloads. -/
def upsertEx : List RawJob → RawJob → List RawJob := fun s m => s ++ [m]

/-- An ISO-parse stub for concrete runs (no date strings involved). -/
def parseIsoEx : Str → Option Int := fun _ => none

/-- Upstream behaviour for the C6 counterexample: page 1 returns one
job with the `has_more` key absent, page 2 returns no data. -/
def pagesEx : Nat → PageResult :=
  fun p => if p = 1 then .ok [job0ex] none else .ok [] none

/-! ## Gap service (`gap_service.py`)

Postings are modelled with the four fields the role-skill aggregation
reads; timestamps are integers and the cutoff
`utcnow() - timedelta(days=days)` is passed in directly.  The advisory
TTL cache is elided: it only short-circuits recomputation. -/

/-- The slice of a stored posting that `get_role_required_skills`
reads. -/
structure Posting : Type where
  title : Str
  search_keywords : Str
  scraped_at : Int
  technology_slugs : List Str
  deriving DecidableEq, Repr

/-- One entry of the returned required-skills list (the source also
rounds the reported percentage to two decimals for display; the
threshold comparison uses the unrounded value, kept exact here). -/
structure RoleSkill : Type where
  skill : Str
  count : Nat
  percentage : ℚ
  total_jobs : Nat
  deriving DecidableEq, Repr

/-- The role filter: case-insensitive exact match on `search_keywords`
within the window, falling back to a case-insensitive title substring
match when no `search_keywords` match exists (legacy data). -/
def roleFilter (role : Str) (cutoff : Int) (store : List Posting) :
    List Posting :=
  let primary := store.filter (fun p =>
    (cutoff ≤ p.scraped_at : Bool) &&
      pyLower p.search_keywords == pyLower (pyStrip role))
  if primary.length ≠ 0 then primary
  else store.filter (fun p =>
    (cutoff ≤ p.scraped_at : Bool) &&
      isSubstr (pyLower (pyStrip role)) (pyLower p.title))

/-- Distinct slugs in first-occurrence order, with the already-seen
slugs accumulated. -/
def dedupFirstAux (seen : List Str) : List Str → List Str
  | [] => []
  | s :: rest =>
    if seen.contains s then dedupFirstAux seen rest
    else s :: dedupFirstAux (s :: seen) rest

/-- Distinct slugs in first-occurrence order (the `$group` stage emits
each distinct slug once; upstream order is unspecified). -/
def dedupFirst (l : List Str) : List Str := dedupFirstAux [] l

/-- Ordered insertion for the `$sort {count: -1}` stage. -/
def insertDesc (key : Str → Nat) (s : Str) : List Str → List Str
  | [] => [s]
  | x :: rest =>
    if key x < key s then s :: x :: rest else x :: insertDesc key s rest

/-- Sort descending by count. -/
def sortByCountDesc (key : Str → Nat) : List Str → List Str
  | [] => []
  | s :: rest => insertDesc key s (sortByCountDesc key rest)

/-- The `get_role_required_skills`: empty when no posting anywhere has a
non-empty `technology_slugs`; otherwise unwind the matched postings'
slugs, count per slug, sort by count descending, and retain exactly the
slugs whose percentage of matched postings is at least
`threshold * 100`. -/
def getRoleRequiredSkills (role : Str) (cutoff : Int) (threshold : ℚ)
    (store : List Posting) : List RoleSkill :=
  if (store.filter (fun p => !p.technology_slugs.isEmpty)).length = 0
  then []
  else
    let matched := roleFilter role cutoff store
    let totalJobs := matched.length
    let allSlugs := matched.flatMap (·.technology_slugs)
    let slugs := sortByCountDesc (fun s => allSlugs.count s)
      (dedupFirst allSlugs)
    slugs.filterMap (fun s =>
      if totalJobs = 0 then none
      else
        let percentage : ℚ := (allSlugs.count s : ℚ) / (totalJobs : ℚ) * 100
        if threshold * 100 ≤ percentage then
          some ⟨s, allSlugs.count s, percentage, totalJobs⟩
        else none)

/-- One required-skill row as `compute_user_coverage` consumes it:
`skill`, an optional `technology_slug`, and the percentage. -/
structure ReqSkill : Type where
  skill : Str
  technology_slug : Option Str
  percentage : ℚ
  deriving DecidableEq, Repr

/-- One row of the returned gap list. -/
structure SkillGapItem : Type where
  skill : Str
  required_percentage : ℚ
  user_has : Bool
  deriving DecidableEq, Repr

/-- The tuple `compute_user_coverage` returns. -/
structure CoverageResult : Type where
  skill_gap_items : List SkillGapItem
  missing_skills : List Str
  coverage : ℚ
  skills_have : Nat
  total_skills : Nat
  deriving DecidableEq, Repr

/-- The `[s.lower().strip() for s in user_skills if s and s.strip()]`. -/
def normUserSkills (userSkills : List Str) : List Str :=
  (userSkills.filter (fun s => !s.isEmpty && !(pyStrip s).isEmpty)).map
    (fun s => pyStrip (pyLower s))

/-- The `str(req_skill.get("technology_slug") or req_skill["skill"]).lower().strip()`. -/
def reqSkillName (r : ReqSkill) : Str :=
  pyStrip (pyLower (match r.technology_slug with
    | some s => if !s.isEmpty then s else r.skill
    | none => r.skill))

/-- One loop iteration of `compute_user_coverage`: the gap item with
its case-insensitive membership test. -/
def reqItem (user : List Str) (r : ReqSkill) : SkillGapItem :=
  ⟨reqSkillName r, r.percentage,
    user.any (fun u => pyLower u == reqSkillName r)⟩

/-- The `compute_user_coverage`: explicit all-empty result for an empty
required list; otherwise items in order, the missing names, and
`coverage = skills_have / total * 100`. -/
def computeUserCoverage (userSkills : List Str)
    (requiredSkills : List ReqSkill) : CoverageResult :=
  if requiredSkills.isEmpty then ⟨[], [], 0, 0, 0⟩
  else
    let items := requiredSkills.map (reqItem (normUserSkills userSkills))
    let missing := (items.filter (fun i => !i.user_has)).map (·.skill)
    let skillsHave := (items.filter (·.user_has)).length
    let total := requiredSkills.length
    ⟨items, missing,
      (if 0 < total then (skillsHave : ℚ) / (total : ℚ) * 100 else 0),
      skillsHave, total⟩

/-- Store for the C8 concrete instance: five matched postings, four
tagged `a` (80%) and one tagged `b` (20%). -/
def st8 : List Posting :=
  [⟨codes "T", codes "Dev", 100, [codes "a"]⟩,
   ⟨codes "T", codes "Dev", 100, [codes "a"]⟩,
   ⟨codes "T", codes "Dev", 100, [codes "a"]⟩,
   ⟨codes "T", codes "Dev", 100, [codes "a"]⟩,
   ⟨codes "T", codes "Dev", 100, [codes "b"]⟩]

/-- Store for the C10 witness: a posting matching the role and window
whose `technology_slugs` is empty. -/
def st10 : List Posting := [⟨codes "Dev", codes "Dev", 100, []⟩]

/-- Required-skill rows for the C9 witness. -/
def req9 : List ReqSkill :=
  [⟨codes "A", none, 50⟩, ⟨codes "b", some (codes "b"), 50⟩,
   ⟨codes "c", none, 50⟩, ⟨codes "d", none, 50⟩]

/-- User skills for the C9 witness: three of the four required skills,
matched case-insensitively and whitespace-insensitively. -/
def user9 : List Str := [codes " a", codes "B ", codes "C"]

/-! ## Theorems about the embedded operations -/

/-! ### Facts about the string primitives -/

theorem lowerCode_idem (c : Nat) : lowerCode (lowerCode c) = lowerCode c := by
  unfold lowerCode
  by_cases h : (65 ≤ c && c ≤ 90) = true
  · rw [if_pos h]
    have hcond : ¬((65 ≤ c + 32 && c + 32 ≤ 90) = true) := by
      simp only [Bool.and_eq_true, decide_eq_true_eq] at h ⊢
      omega
    rw [if_neg hcond]
  · rw [if_neg h, if_neg h]

theorem map_id_of_mem {α : Type} {f : α → α} :
    ∀ {l : List α}, (∀ c ∈ l, f c = c) → l.map f = l
  | [], _ => rfl
  | c :: l, h => by
    simp only [List.map_cons, h c (List.mem_cons_self ..),
      map_id_of_mem (fun d hd => h d (List.mem_cons_of_mem _ hd))]

theorem pyLower_fixed_of_mem {s : Str} {c : Nat} (h : c ∈ pyLower s) :
    lowerCode c = c := by
  rcases List.mem_map.mp h with ⟨d, _, rfl⟩
  exact lowerCode_idem d

theorem pyLower_idem (s : Str) : pyLower (pyLower s) = pyLower s :=
  map_id_of_mem (fun _ hc => pyLower_fixed_of_mem hc)

theorem isWs_lowerCode_false {c : Nat} (h : isWs c = false) :
    isWs (lowerCode c) = false := by
  unfold lowerCode
  split
  · rename_i hr
    simp only [Bool.and_eq_true, decide_eq_true_eq] at hr
    simp only [isWs, Bool.or_eq_false_iff, beq_eq_false_iff_ne]
    omega
  · exact h

theorem head_dropWhile {p : Nat → Bool} :
    ∀ {l : List Nat} {c : Nat} {t : List Nat},
      l.dropWhile p = c :: t → p c = false
  | [], _, _, h => by simp [List.dropWhile] at h
  | a :: l, c, t, h => by
    rw [List.dropWhile_cons] at h
    split at h
    · exact head_dropWhile h
    · cases h
      rename_i hp
      exact Bool.eq_false_iff.mpr hp

theorem getLast?_dropWhile {p : Nat → Bool} :
    ∀ {l : List Nat}, l.dropWhile p ≠ [] →
      (l.dropWhile p).getLast? = l.getLast?
  | [], h => absurd rfl h
  | a :: l, h => by
    rw [List.dropWhile_cons] at h ⊢
    split at h
    · rw [if_pos (by assumption)]
      cases l with
      | nil => exact absurd rfl h
      | cons b l' =>
        rw [getLast?_dropWhile h, List.getLast?_cons_cons]
    · rw [if_neg (by assumption)]

theorem pyStrip_head_not_ws {s : Str} {c : Nat}
    (h : (pyStrip s).head? = some c) : isWs c = false := by
  unfold pyStrip at h
  rw [List.head?_reverse] at h
  have hne : ((s.dropWhile isWs).reverse.dropWhile isWs) ≠ [] := by
    intro he
    rw [he] at h
    simp at h
  rw [getLast?_dropWhile hne, List.getLast?_reverse] at h
  obtain ⟨t, ht⟩ : ∃ t, s.dropWhile isWs = c :: t := by
    cases hd : s.dropWhile isWs with
    | nil => rw [hd] at h; simp at h
    | cons x t => rw [hd] at h; simp at h; exact ⟨t, by rw [h]⟩
  exact head_dropWhile ht

theorem pyStrip_last_not_ws {s : Str} {c : Nat}
    (h : (pyStrip s).getLast? = some c) : isWs c = false := by
  unfold pyStrip at h
  rw [List.getLast?_reverse] at h
  obtain ⟨t, ht⟩ :
      ∃ t, (s.dropWhile isWs).reverse.dropWhile isWs = c :: t := by
    cases hd : (s.dropWhile isWs).reverse.dropWhile isWs with
    | nil => rw [hd] at h; simp at h
    | cons x t => rw [hd] at h; simp at h; exact ⟨t, by rw [h]⟩
  exact head_dropWhile ht

theorem dropWhile_eq_self_of_head {p : Nat → Bool} :
    ∀ {l : List Nat}, (∀ c, l.head? = some c → p c = false) →
      l.dropWhile p = l
  | [], _ => rfl
  | a :: l, h => by
    rw [List.dropWhile_cons, h a rfl]
    simp

theorem pyStrip_eq_self {s : Str}
    (hh : ∀ c, s.head? = some c → isWs c = false)
    (hl : ∀ c, s.getLast? = some c → isWs c = false) :
    pyStrip s = s := by
  unfold pyStrip
  rw [dropWhile_eq_self_of_head hh,
    dropWhile_eq_self_of_head
      (fun c hc => hl c (by rwa [List.head?_reverse] at hc)),
    List.reverse_reverse]

/-! ### The lexicographic order and sorted duplicate-free insertion -/

theorem ltStr_irrefl : ∀ s : Str, ltStr s s = false
  | [] => rfl
  | a :: s => by simp [ltStr, Nat.lt_irrefl, ltStr_irrefl s]

theorem ne_of_ltStr {a b : Str} (h : ltStr a b = true) : a ≠ b := by
  intro he
  subst he
  rw [ltStr_irrefl] at h
  exact Bool.false_ne_true h

theorem ltStr_total : ∀ a b : Str, a = b ∨ ltStr a b = true ∨ ltStr b a = true
  | [], [] => .inl rfl
  | [], _ :: _ => .inr (.inl rfl)
  | _ :: _, [] => .inr (.inr rfl)
  | a :: s, b :: t => by
    rcases Nat.lt_trichotomy a b with h | h | h
    · exact .inr (.inl (by simp [ltStr, h]))
    · subst h
      rcases ltStr_total s t with h' | h' | h'
      · exact .inl (by rw [h'])
      · exact .inr (.inl (by simp [ltStr, Nat.lt_irrefl, h']))
      · exact .inr (.inr (by simp [ltStr, Nat.lt_irrefl, h']))
    · exact .inr (.inr (by simp [ltStr, h]))

theorem ltStr_trans : ∀ a b c : Str,
    ltStr a b = true → ltStr b c = true → ltStr a c = true
  | [], b, [], h1, h2 => by
    cases b <;> simp [ltStr] at h1 h2
  | [], _, _ :: _, _, _ => rfl
  | _ :: _, [], _, h1, _ => by simp [ltStr] at h1
  | _ :: _, _ :: _, [], _, h2 => by simp [ltStr] at h2
  | a :: s, b :: t, c :: u, h1, h2 => by
    simp only [ltStr] at h1 h2 ⊢
    split at h1
    · rename_i hab
      split at h2
      · rename_i hbc
        rw [if_pos (Nat.lt_trans hab hbc)]
      · split at h2
        · exact absurd h2 (by simp)
        · rename_i hbc hcb
          have hbc' : b = c := by omega
          subst hbc'
          rw [if_pos hab]
    · split at h1
      · exact absurd h1 (by simp)
      · rename_i hab hba
        have hab' : a = b := by omega
        subst hab'
        split at h2
        · rename_i hac
          rw [if_pos hac]
        · split at h2
          · exact absurd h2 (by simp)
          · rename_i hac hca
            have hac' : a = c := by omega
            subst hac'
            rw [if_neg hac, if_neg hac]
            exact ltStr_trans s t u h1 h2

theorem mem_insertStr {x a : Str} :
    ∀ {l : List Str}, x ∈ insertStr a l ↔ x = a ∨ x ∈ l
  | [] => by simp [insertStr]
  | b :: l => by
    simp only [insertStr]
    split
    · rename_i he
      subst he
      simp only [List.mem_cons]
      tauto
    · split
      · simp only [List.mem_cons]
      · simp only [List.mem_cons, mem_insertStr (l := l)]
        tauto

theorem head?_insertStr {a : Str} : ∀ {l : List Str},
    (insertStr a l).head? = some a ∨ (insertStr a l).head? = l.head?
  | [] => .inl rfl
  | b :: l => by
    simp only [insertStr]
    split
    · exact .inr rfl
    · split
      · exact .inl rfl
      · exact .inr rfl

theorem sorted_insertStr (a : Str) :
    ∀ {l : List Str}, StrictSorted l → StrictSorted (insertStr a l)
  | [], _ => List.chain'_singleton a
  | b :: l, h => by
    simp only [insertStr]
    split
    · exact h
    · split
      · rename_i hne hlt
        exact List.chain'_cons.mpr ⟨hlt, h⟩
      · rename_i hne hnlt
        have hba : ltStr b a = true := by
          rcases ltStr_total a b with h' | h' | h'
          · exact absurd h' hne
          · exact absurd h' hnlt
          · exact h'
        have htl : StrictSorted l := (List.chain'_cons'.mp h).2
        refine List.chain'_cons'.mpr ⟨?_, sorted_insertStr a htl⟩
        intro y hy
        rcases head?_insertStr (a := a) (l := l) with hh | hh
        · rw [hh] at hy
          cases hy
          exact hba
        · rw [hh] at hy
          exact (List.chain'_cons'.mp h).1 y hy

theorem sorted_sortDedup : ∀ l : List Str, StrictSorted (sortDedup l)
  | [] => List.chain'_nil
  | a :: l => sorted_insertStr a (sorted_sortDedup l)

theorem mem_sortDedup {x : Str} :
    ∀ {l : List Str}, x ∈ sortDedup l ↔ x ∈ l
  | [] => Iff.rfl
  | a :: l => by
    simp only [sortDedup, List.foldr_cons, List.mem_cons]
    rw [show List.foldr insertStr [] l = sortDedup l from rfl] at *
    rw [mem_insertStr, mem_sortDedup (l := l)]

theorem sortDedup_eq_self : ∀ {l : List Str}, StrictSorted l → sortDedup l = l
  | [], _ => rfl
  | a :: l, h => by
    have htl : StrictSorted l := (List.chain'_cons'.mp h).2
    show insertStr a (sortDedup l) = a :: l
    rw [sortDedup_eq_self htl]
    cases l with
    | nil => rfl
    | cons b l' =>
      have hab : ltStr a b = true := (List.chain'_cons.mp h).1
      simp only [insertStr]
      rw [if_neg (ne_of_ltStr hab), if_pos hab]

theorem nodup_of_sorted {l : List Str} (h : StrictSorted l) : l.Nodup := by
  haveI : IsTrans Str (fun a b => ltStr a b = true) :=
    ⟨fun a b c => ltStr_trans a b c⟩
  exact (List.chain'_iff_pairwise.mp h).imp (fun hr => ne_of_ltStr hr)

/-! ### Dictionary lemmas -/

theorem hasKey_cons_elim {e : String × JVal} {rest : PyDict} {k : String}
    (h : hasKey (e :: rest) k = false) :
    (e.1 == k) = false ∧ hasKey rest k = false := by
  have h' := h
  simp only [hasKey, List.any_cons, Bool.or_eq_false_iff] at h'
  exact h'

theorem hasKey_cons_elim_true {e : String × JVal} {rest : PyDict}
    {k : String} (h : hasKey (e :: rest) k = true)
    (hek : (e.1 == k) = false) : hasKey rest k = true := by
  have h' := h
  simp only [hasKey, List.any_cons, hek, Bool.false_or] at h'
  exact h'

theorem pget_cons_ne {e : String × JVal} {rest : PyDict} {k : String}
    (hek : (e.1 == k) = false) : pget (e :: rest) k = pget rest k := by
  simp [pget, hek]

theorem hasKey_append_single {p : PyDict} {k k' : String} {v : JVal} :
    hasKey (p ++ [(k', v)]) k = (hasKey p k || (k' == k)) := by
  simp [hasKey, List.any_append]

theorem pget_append_ne {p : PyDict} {k k' : String} {v : JVal}
    (h : k' ≠ k) : pget (p ++ [(k', v)]) k = pget p k := by
  induction p with
  | nil => simp [pget, beq_eq_false_iff_ne.mpr h]
  | cons e rest ih =>
    by_cases hek : (e.1 == k) = true
    · simp [pget, hek]
    · simp only [List.cons_append, pget,
        show (e.1 == k) = false from by simpa using hek]
      simpa using ih

theorem pget_append_self {p : PyDict} {k : String} {v : JVal}
    (h : hasKey p k = false) : pget (p ++ [(k, v)]) k = v := by
  induction p with
  | nil => simp [pget]
  | cons e rest ih =>
    obtain ⟨hek, hr⟩ := hasKey_cons_elim h
    simp only [List.cons_append, pget, hek]
    simpa using ih hr

theorem setdefault_of_hasKey {p : PyDict} {k : String} {v : JVal}
    (h : hasKey p k = true) : setdefault p k v = p := by
  unfold setdefault
  rw [if_pos h]

theorem setdefault_of_not_hasKey {p : PyDict} {k : String} {v : JVal}
    (h : hasKey p k = false) : setdefault p k v = p ++ [(k, v)] := by
  unfold setdefault
  rw [if_neg (by simp [h])]

theorem preparePayload_noPage {maxJobs : Int} {p : PyDict}
    (hp : hasKey p "page" = false) (ho : hasKey p "offset" = false) :
    preparePayload maxJobs p =
      setdefault (p ++ [("page", jnum 1)]) "limit" (jnum maxJobs) := by
  unfold preparePayload
  rw [hp, ho, if_pos (show ((!false && !false) = true) by decide)]
  rw [setdefault_of_not_hasKey hp]

theorem preparePayload_withPage {maxJobs : Int} {p : PyDict}
    (h : (!hasKey p "page" && !hasKey p "offset") = false) :
    preparePayload maxJobs p = setdefault p "limit" (jnum maxJobs) := by
  unfold preparePayload
  rw [if_neg (by simp [h])]

/-! ### C2: retry classification and exhaustion -/

theorem attemptOutcome_503 :
    attemptOutcome (.respond 503) = .error .retryable := by decide

theorem runRetry_const503 (fuel : Nat) : ∀ i : Nat,
    runRetry (fun _ => .respond 503) fuel i =
      ⟨.error .retryable, fuel + 1,
        (List.range fuel).map (fun k => waitExp (i + k))⟩ := by
  induction fuel with
  | zero =>
    intro i
    rw [runRetry, attemptOutcome_503]
    rfl
  | succ f ih =>
    intro i
    rw [runRetry, attemptOutcome_503]
    simp only [reduceIte, ih (i + 1)]
    refine congrArg _ ?_
    rw [List.range_succ_eq_map]
    simp only [List.map_cons, List.map_map]
    refine congrArg₂ _ (by rw [Nat.add_zero]) ?_
    apply List.map_congr_left
    intro a _
    show waitExp (i + 1 + a) = waitExp (i + (a + 1))
    rw [Nat.add_assoc, Nat.add_comm 1 a]

/-- C2: against a transport that always answers HTTP 503,
`_post_with_retry` makes exactly `maxRetries` attempts
(`stop_after_attempt(settings.their_stack_max_retries)`), sleeping the
exponential-backoff waits `max(1, min(2^(i-1), 10))` (base 1s, cap 10s)
between consecutive attempts, and finally raises the Retryable error;
against a transport answering HTTP 401 on the first attempt it makes
exactly one attempt (no retry) and raises the Authentication error. -/
theorem c2_retry_classification (maxRetries : Nat) (hmr : 1 ≤ maxRetries)
    (transport401 : Nat → AttemptResult)
    (h401 : transport401 1 = .respond 401) :
    (postWithRetry (fun _ => .respond 503) maxRetries).result =
      .error .retryable ∧
    (postWithRetry (fun _ => .respond 503) maxRetries).attempts = maxRetries ∧
    (postWithRetry (fun _ => .respond 503) maxRetries).waits =
      (List.range (maxRetries - 1)).map (fun k => waitExp (1 + k)) ∧
    (∀ k, waitExp k = max 1 (min (2 ^ (k - 1)) 10)) ∧
    (postWithRetry transport401 maxRetries).result = .error .authentication ∧
    (postWithRetry transport401 maxRetries).attempts = 1 := by
  have h503 := runRetry_const503 (maxRetries - 1) 1
  have hauth : runRetry transport401 (maxRetries - 1) 1 =
      ⟨.error .authentication, 1, []⟩ := by
    rw [runRetry, h401]
    rfl
  unfold postWithRetry
  rw [h503, hauth]
  refine ⟨rfl, ?_, rfl, fun _ => rfl, rfl, rfl⟩
  show maxRetries - 1 + 1 = maxRetries
  omega

/-- C2 witness: the theorem at `maxRetries = 3` and the constant-401
transport; three attempts with waits 1s and 2s for the 503 case, one
attempt for the 401 case. -/
theorem c2_retry_classification_witness :
    (postWithRetry (fun _ => .respond 503) 3).result = .error .retryable ∧
    (postWithRetry (fun _ => .respond 503) 3).attempts = 3 ∧
    (postWithRetry (fun _ => .respond 503) 3).waits =
      (List.range 2).map (fun k => waitExp (1 + k)) ∧
    (∀ k, waitExp k = max 1 (min (2 ^ (k - 1)) 10)) ∧
    (postWithRetry (fun _ => .respond 401) 3).result =
      .error .authentication ∧
    (postWithRetry (fun _ => .respond 401) 3).attempts = 1 :=
  c2_retry_classification 3 (by decide) (fun _ => .respond 401) rfl

/-! ### C4: temporal-filter precondition -/

/-- C4: a payload containing none of the temporal filter keys
(`posted_at_max_age_days`, `posted_at_gte`, `posted_at_lte`) makes
`search_jobs` fail with the local `ValueError` before any network
request is issued. -/
theorem c4_temporal_filter_precondition (maxJobs : Int) (maxRetries : Nat)
    (transport : Nat → AttemptResult) (p : PyDict)
    (h : ∀ k ∈ ["posted_at_max_age_days", "posted_at_gte", "posted_at_lte"],
      hasKey p k = false) :
    searchJobs maxJobs maxRetries transport p = .invalid ∧
    networkCalls (searchJobs maxJobs maxRetries transport p) = 0 := by
  have h1 := h "posted_at_max_age_days" (by simp)
  have h2 := h "posted_at_gte" (by simp)
  have h3 := h "posted_at_lte" (by simp)
  have hv : validatePayload p = false := by
    simp [validatePayload, h1, h2, h3]
  unfold searchJobs
  rw [hv]
  exact ⟨rfl, rfl⟩

/-- C4 witness: the theorem at a concrete temporal-filter-free payload. -/
theorem c4_temporal_filter_precondition_witness :
    searchJobs 25 3 (fun _ => .respond 200) [("limit", jnum 10)] = .invalid ∧
    networkCalls
      (searchJobs 25 3 (fun _ => .respond 200) [("limit", jnum 10)]) = 0 :=
  c4_temporal_filter_precondition 25 3 (fun _ => .respond 200)
    [("limit", jnum 10)] (by decide)

/-! ### C5: pagination defaults and the (absent) limit clamp -/

/-- C5 counterexample: the claim that the request sent upstream always
carries a limit at most the configured per-call maximum is false —
`search_jobs` only applies `setdefault`, so a caller-supplied
`limit = 999` is forwarded unchanged past a configured maximum of 25. -/
theorem c5_limit_not_clamped :
    searchJobs 25 3 (fun _ => .respond 200)
        [("posted_at_max_age_days", jnum 7), ("limit", jnum 999)] =
      .ok [("posted_at_max_age_days", jnum 7), ("limit", jnum 999),
            ("page", jnum 1)] 200 1 ∧
    pget [("posted_at_max_age_days", jnum 7), ("limit", jnum 999),
            ("page", jnum 1)] "limit" = jnum 999 ∧
    ¬((999 : Int) ≤ 25) := by
  refine ⟨by decide, by decide, by decide⟩

/-- C5 (amended): if neither `page` nor `offset` is present the sent
payload has `page = 1`; a `limit` is always present — defaulted to the
configured `max_jobs_per_search` when the caller supplied none — but a
caller-supplied `limit` is forwarded unchanged, even when it exceeds
the configured maximum (`setdefault` does not clamp).  `search_jobs`
applies exactly this preparation to every payload it accepts. -/
theorem c5_pagination_defaults (maxJobs : Int) (p : PyDict) :
    (hasKey p "page" = false → hasKey p "offset" = false →
      pget (preparePayload maxJobs p) "page" = jnum 1) ∧
    (hasKey p "limit" = false →
      pget (preparePayload maxJobs p) "limit" = jnum maxJobs) ∧
    (hasKey p "limit" = true →
      pget (preparePayload maxJobs p) "limit" = pget p "limit") := by
  refine ⟨?_, ?_, ?_⟩
  · intro hp ho
    rw [preparePayload_noPage hp ho]
    by_cases hl : hasKey (p ++ [("page", jnum 1)]) "limit" = true
    · rw [setdefault_of_hasKey hl]
      exact pget_append_self hp
    · rw [setdefault_of_not_hasKey (by simpa using hl)]
      rw [pget_append_ne (show "limit" ≠ "page" by decide)]
      exact pget_append_self hp
  · intro hl
    by_cases hpage : (!hasKey p "page" && !hasKey p "offset") = true
    · obtain ⟨hp, ho⟩ := Bool.and_eq_true _ _ |>.mp hpage
      rw [preparePayload_noPage (by simpa using hp) (by simpa using ho)]
      have hl' : hasKey (p ++ [("page", jnum 1)]) "limit" = false := by
        rw [hasKey_append_single, hl]
        decide
      rw [setdefault_of_not_hasKey hl']
      exact pget_append_self hl'
    · rw [preparePayload_withPage (by simpa using hpage)]
      rw [setdefault_of_not_hasKey hl]
      exact pget_append_self hl
  · intro hl
    by_cases hpage : (!hasKey p "page" && !hasKey p "offset") = true
    · obtain ⟨hp, ho⟩ := Bool.and_eq_true _ _ |>.mp hpage
      rw [preparePayload_noPage (by simpa using hp) (by simpa using ho)]
      have hl' : hasKey (p ++ [("page", jnum 1)]) "limit" = true := by
        rw [hasKey_append_single, hl]
        rfl
      rw [setdefault_of_hasKey hl']
      exact pget_append_ne (show "page" ≠ "limit" by decide)
    · rw [preparePayload_withPage (by simpa using hpage)]
      rw [setdefault_of_hasKey hl]

/-- C5 witness: the amended theorem applied to a payload with no
page/offset/limit keys (both defaults fire) and to a payload carrying
`limit = 999` (forwarded unchanged). -/
theorem c5_pagination_defaults_witness :
    pget (preparePayload 25 [("posted_at_max_age_days", jnum 7)]) "page" =
      jnum 1 ∧
    pget (preparePayload 25 [("posted_at_max_age_days", jnum 7)]) "limit" =
      jnum 25 ∧
    pget (preparePayload 25
        [("posted_at_max_age_days", jnum 7), ("limit", jnum 999)]) "limit" =
      pget [("posted_at_max_age_days", jnum 7), ("limit", jnum 999)]
        "limit" :=
  ⟨(c5_pagination_defaults 25 [("posted_at_max_age_days", jnum 7)]).1
      (by decide) (by decide),
   (c5_pagination_defaults 25 [("posted_at_max_age_days", jnum 7)]).2.1
      (by decide),
   (c5_pagination_defaults 25
      [("posted_at_max_age_days", jnum 7), ("limit", jnum 999)]).2.2
      (by decide)⟩

/-! ### Dictionary update lemmas -/

theorem pget_eq_jnull_of_not_hasKey {p : PyDict} {k : String}
    (h : hasKey p k = false) : pget p k = jnull := by
  induction p with
  | nil => rfl
  | cons e rest ih =>
    obtain ⟨hek, hr⟩ := hasKey_cons_elim h
    simp only [pget, hek]
    simpa using ih hr

theorem hasKey_of_truthy_pget {p : PyDict} {k : String}
    (h : truthyJ (pget p k) = true) : hasKey p k = true := by
  cases hk : hasKey p k
  · rw [pget_eq_jnull_of_not_hasKey hk] at h
    exact absurd h (by decide)
  · rfl

theorem pget_pset_self {p : PyDict} {k : String} {v : JVal} :
    pget (pset p k v) k = v := by
  induction p with
  | nil => simp [pset, pget]
  | cons e rest ih =>
    by_cases hek : (e.1 == k) = true
    · simp [pset, hek, pget]
    · simp only [pset, show (e.1 == k) = false from by simpa using hek]
      simp only [Bool.false_eq_true, if_false, pget,
        show (e.1 == k) = false from by simpa using hek]
      simpa using ih

theorem pget_pset_ne {p : PyDict} {k k' : String} {v : JVal}
    (h : k' ≠ k) : pget (pset p k' v) k = pget p k := by
  induction p with
  | nil => simp [pset, pget, beq_eq_false_iff_ne.mpr h]
  | cons e rest ih =>
    by_cases hek : (e.1 == k') = true
    · have he1 : e.1 ≠ k := by
        rw [eq_of_beq hek]
        exact h
      simp [pset, hek, pget, beq_eq_false_iff_ne.mpr h,
        beq_eq_false_iff_ne.mpr he1]
    · simp only [pset, show (e.1 == k') = false from by simpa using hek,
        Bool.false_eq_true, if_false]
      by_cases he : (e.1 == k) = true
      · simp [pget, he]
      · simp only [pget, show (e.1 == k) = false from by simpa using he,
          Bool.false_eq_true, if_false]
        exact ih

theorem hasKey_pset {p : PyDict} {k k' : String} {v : JVal} :
    hasKey (pset p k' v) k = (hasKey p k || (k' == k)) := by
  induction p with
  | nil => simp [pset, hasKey, List.any_cons, Bool.or_comm]
  | cons e rest ih =>
    by_cases hek : (e.1 == k') = true
    · have he1 : e.1 = k' := eq_of_beq hek
      simp only [pset, hek, if_true, hasKey, List.any_cons, he1]
      cases hkk : (k' == k) <;> cases hr : rest.any (fun x => x.1 == k) <;>
        simp [hkk, hr]
    · simp only [pset, show (e.1 == k') = false from by simpa using hek,
        Bool.false_eq_true, if_false, hasKey, List.any_cons]
      rw [show (pset rest k' v).any (fun x => x.1 == k) =
        hasKey (pset rest k' v) k from rfl, ih,
        show List.any rest (fun x => x.1 == k) = hasKey rest k from rfl,
        Bool.or_assoc]

/-! ### `applyUpdate` lemmas -/

theorem applyUpdate_pget_scraped {jd : PyDict} : ∀ {doc : Doc},
    pget (applyUpdate doc jd) "scraped_at" = pget doc "scraped_at" := by
  induction jd with
  | nil => intro doc; rfl
  | cons e rest ih =>
    intro doc
    show pget (applyUpdate
      (if e.1 == "scraped_at" then doc else pset doc e.1 e.2) rest)
        "scraped_at" = pget doc "scraped_at"
    by_cases he : (e.1 == "scraped_at") = true
    · rw [he]
      simp only [if_true]
      exact ih
    · rw [show (e.1 == "scraped_at") = false from by simpa using he]
      simp only [Bool.false_eq_true, if_false]
      rw [ih]
      exact pget_pset_ne (by simpa using he)

theorem applyUpdate_pget_absent {k : String} :
    ∀ {jd : PyDict} {doc : Doc}, hasKey jd k = false →
      pget (applyUpdate doc jd) k = pget doc k := by
  intro jd
  induction jd with
  | nil => intro doc _; rfl
  | cons e rest ih =>
    intro doc h
    obtain ⟨hek, hrest⟩ := hasKey_cons_elim h
    show pget (applyUpdate
      (if e.1 == "scraped_at" then doc else pset doc e.1 e.2) rest) k =
        pget doc k
    by_cases he : (e.1 == "scraped_at") = true
    · rw [he]
      simp only [if_true]
      exact ih hrest
    · rw [show (e.1 == "scraped_at") = false from by simpa using he]
      simp only [Bool.false_eq_true, if_false]
      rw [ih hrest]
      exact pget_pset_ne (by simpa using hek)

theorem applyUpdate_pget_present {k : String} (hk : k ≠ "scraped_at") :
    ∀ {jd : PyDict} {doc : Doc}, NodupKeys jd → hasKey jd k = true →
      pget (applyUpdate doc jd) k = pget jd k := by
  intro jd
  induction jd with
  | nil => intro doc _ h; simp [hasKey] at h
  | cons e rest ih =>
    intro doc hnd h
    have hnd' : NodupKeys rest := (List.nodup_cons.mp hnd).2
    show pget (applyUpdate
      (if e.1 == "scraped_at" then doc else pset doc e.1 e.2) rest) k =
        pget (e :: rest) k
    by_cases hek : (e.1 == k) = true
    · have hkeq : e.1 = k := eq_of_beq hek
      have habs : hasKey rest k = false := by
        cases hb : hasKey rest k
        · rfl
        · exfalso
          have : k ∈ rest.map Prod.fst := by
            simp only [hasKey] at hb
            rcases List.any_eq_true.mp hb with ⟨x, hx, hxk⟩
            rw [← eq_of_beq hxk]
            exact List.mem_map_of_mem _ hx
          exact (List.nodup_cons.mp hnd).1 (hkeq ▸ this)
      have hes : (e.1 == "scraped_at") = false := by
        rw [hkeq]
        exact beq_eq_false_iff_ne.mpr hk
      rw [hes]
      simp only [Bool.false_eq_true, if_false]
      rw [applyUpdate_pget_absent habs, hkeq, pget_pset_self]
      simp [pget, hek]
    · have hekf : (e.1 == k) = false := by simpa using hek
      have hrest : hasKey rest k = true := hasKey_cons_elim_true h hekf
      rw [pget_cons_ne hekf]
      by_cases he : (e.1 == "scraped_at") = true
      · rw [he]
        simp only [if_true]
        exact ih hnd' hrest
      · rw [show (e.1 == "scraped_at") = false from by simpa using he]
        simp only [Bool.false_eq_true, if_false]
        exact ih hnd' hrest

/-! ### Store lemmas and the upsert characterization -/

theorem not_mem_keys_of_not_hasKey : ∀ {p : PyDict} {k : String},
    hasKey p k = false → k ∉ p.map Prod.fst := by
  intro p
  induction p with
  | nil => intro k _ h; exact absurd h (List.not_mem_nil k)
  | cons e rest ih =>
    intro k h hmem
    obtain ⟨hek, hr⟩ := hasKey_cons_elim h
    rcases List.mem_cons.mp hmem with he | hm
    · rw [he] at hek
      simp at hek
    · exact ih hr hm

theorem keys_pset : ∀ {p : PyDict} {k : String} {v : JVal},
    (pset p k v).map Prod.fst =
      if hasKey p k = true then p.map Prod.fst else p.map Prod.fst ++ [k] := by
  intro p
  induction p with
  | nil => intro k v; simp [pset, hasKey]
  | cons e rest ih =>
    intro k v
    by_cases hek : (e.1 == k) = true
    · have hK : hasKey (e :: rest) k = true := by
        simp [hasKey, List.any_cons, hek]
      rw [if_pos hK]
      simp only [pset, hek, if_true, List.map_cons]
      rw [eq_of_beq hek]
    · have hekf : (e.1 == k) = false := by simpa using hek
      simp only [pset, hekf, Bool.false_eq_true, if_false, List.map_cons, ih]
      have hKc : hasKey (e :: rest) k = hasKey rest k := by
        simp [hasKey, List.any_cons, hekf]
      rw [hKc]
      by_cases hr : hasKey rest k = true
      · rw [if_pos hr, if_pos hr]
      · rw [if_neg hr, if_neg hr]
        rfl

theorem NodupKeys_pset {p : PyDict} {k : String} {v : JVal}
    (h : NodupKeys p) : NodupKeys (pset p k v) := by
  unfold NodupKeys
  rw [keys_pset]
  by_cases hk : hasKey p k = true
  · rw [if_pos hk]
    exact h
  · rw [if_neg hk]
    have hnm : k ∉ p.map Prod.fst :=
      not_mem_keys_of_not_hasKey (by simpa using hk)
    rw [List.nodup_append]
    refine ⟨h, List.nodup_singleton _, ?_⟩
    intro a ha hb
    rw [List.mem_singleton] at hb
    subst hb
    exact hnm ha

theorem filter_nil_of_find_none : ∀ {s : Store} {k : String} {v : JVal},
    findIdxByField s k v = none →
      s.filter (fun d => pget d k == v) = [] := by
  intro s
  induction s with
  | nil => intro k v _; rfl
  | cons d rest ih =>
    intro k v h
    simp only [findIdxByField] at h
    split at h
    · exact absurd h (by simp)
    · rename_i hd
      have hr : findIdxByField rest k v = none := by
        cases hfr : findIdxByField rest k v
        · rfl
        · rw [hfr] at h
          simp at h
      rw [List.filter_cons]
      rw [if_neg (by simp [hd])]
      exact ih hr

theorem findIdxByField_append_hit {s : Store} {k : String} {v : JVal}
    {d : Doc} (h : findIdxByField s k v = none)
    (hd : (pget d k == v) = true) :
    findIdxByField (s ++ [d]) k v = some s.length := by
  induction s with
  | nil => simp [findIdxByField, hd]
  | cons e rest ih =>
    simp only [findIdxByField] at h
    split at h
    · exact absurd h (by simp)
    · rename_i he
      have hr : findIdxByField rest k v = none := by
        cases hfr : findIdxByField rest k v
        · rfl
        · rw [hfr] at h
          simp at h
      show findIdxByField ((e :: rest) ++ [d]) k v = some (e :: rest).length
      rw [List.cons_append]
      show (if (pget e k == v) = true then some 0
        else (findIdxByField (rest ++ [d]) k v).map (· + 1)) =
          some (e :: rest).length
      rw [if_neg (by simp [he]), ih hr]
      rfl

theorem getD_append_len : ∀ {s : Store} {d : Doc},
    (s ++ [d]).getD s.length [] = d := by
  intro s
  induction s with
  | nil => intro d; rfl
  | cons e rest ih => intro d; exact ih

theorem set_append_len : ∀ {s : Store} {d x : Doc},
    (s ++ [d]).set s.length x = s ++ [x] := by
  intro s
  induction s with
  | nil => intro d x; rfl
  | cons e rest ih =>
    intro d x
    simp only [List.cons_append, List.length_cons, List.set_cons_succ]
    rw [ih]

theorem upsertJob_eq_insert {s : Store} {p : PyDict} {t : JVal}
    (h1 : truthyJ (pget p "job_id") = true)
    (h2 : findIdxByField s "job_id" (pget p "job_id") = none)
    (h3 : truthyJ (pget p "url") = true →
      findIdxByField s "url" (pget p "url") = none) :
    upsertJob s p t = s ++ [pset p "updated_at" t] := by
  simp only [upsertJob]
  rw [show pget (pset p "updated_at" t) "job_id" = pget p "job_id" from
      pget_pset_ne (by decide),
    show pget (pset p "updated_at" t) "url" = pget p "url" from
      pget_pset_ne (by decide),
    h1, h2]
  simp only [if_true]
  by_cases hu : truthyJ (pget p "url") = true
  · rw [hu, h3 hu]
    rfl
  · rw [show truthyJ (pget p "url") = false from by simpa using hu]
    rfl

theorem upsertJob_eq_update {s : Store} {p : PyDict} {t : JVal} {i : Nat}
    (h1 : truthyJ (pget p "job_id") = true)
    (h2 : findIdxByField s "job_id" (pget p "job_id") = some i) :
    upsertJob s p t =
      s.set i (applyUpdate (s.getD i []) (pset p "updated_at" t)) := by
  simp only [upsertJob]
  rw [show pget (pset p "updated_at" t) "job_id" = pget p "job_id" from
      pget_pset_ne (by decide),
    h1, h2]
  rfl

theorem upsertJob_eq_update_url {s : Store} {p : PyDict} {t : JVal} {i : Nat}
    (h1 : truthyJ (pget p "job_id") = false)
    (h2 : truthyJ (pget p "url") = true)
    (h3 : findIdxByField s "url" (pget p "url") = some i) :
    upsertJob s p t =
      s.set i (applyUpdate (s.getD i []) (pset p "updated_at" t)) := by
  simp only [upsertJob]
  rw [show pget (pset p "updated_at" t) "job_id" = pget p "job_id" from
      pget_pset_ne (by decide),
    show pget (pset p "updated_at" t) "url" = pget p "url" from
      pget_pset_ne (by decide),
    h1, h2, h3]
  rfl

/-- C1: idempotent upsert.  With a fresh store (no `job_id` or `url`
match), a first submission inserts the stamped payload; a second
submission with the same `job_id` finds that document by `job_id` and
updates it in place, so exactly one stored document carries the id; its
`scraped_at` keeps the first-insert value while `updated_at` and every
other payload field reflect the second payload.  A payload with no
`job_id` but a `url` matching an existing document updates in place
(store size unchanged) instead of inserting a duplicate. -/
theorem c1_upsert_idempotent (s : Store) (p1 p2 : PyDict) (t1 t2 : JVal)
    (hnd2 : NodupKeys p2)
    (hid1 : truthyJ (pget p1 "job_id") = true)
    (hsame : pget p2 "job_id" = pget p1 "job_id")
    (hfresh_id : findIdxByField s "job_id" (pget p1 "job_id") = none)
    (hfresh_url : truthyJ (pget p1 "url") = true →
      findIdxByField s "url" (pget p1 "url") = none) :
    upsertJob s p1 t1 = s ++ [pset p1 "updated_at" t1] ∧
    upsertJob (upsertJob s p1 t1) p2 t2 =
      s ++ [applyUpdate (pset p1 "updated_at" t1) (pset p2 "updated_at" t2)] ∧
    ((upsertJob (upsertJob s p1 t1) p2 t2).filter
        (fun d => pget d "job_id" == pget p1 "job_id")).length =
      (s.filter (fun d => pget d "job_id" == pget p1 "job_id")).length + 1 ∧
    pget (applyUpdate (pset p1 "updated_at" t1) (pset p2 "updated_at" t2))
        "scraped_at" = pget p1 "scraped_at" ∧
    pget (applyUpdate (pset p1 "updated_at" t1) (pset p2 "updated_at" t2))
        "updated_at" = t2 ∧
    (∀ k, k ≠ "scraped_at" → k ≠ "updated_at" → hasKey p2 k = true →
      pget (applyUpdate (pset p1 "updated_at" t1) (pset p2 "updated_at" t2))
          k = pget p2 k) ∧
    (∀ (s' : Store) (q : PyDict) (t' : JVal) (i : Nat),
      truthyJ (pget q "job_id") = false →
      truthyJ (pget q "url") = true →
      findIdxByField s' "url" (pget q "url") = some i →
      (upsertJob s' q t').length = s'.length) := by
  have hA : upsertJob s p1 t1 = s ++ [pset p1 "updated_at" t1] :=
    upsertJob_eq_insert hid1 hfresh_id hfresh_url
  have hid1' : pget (pset p1 "updated_at" t1) "job_id" = pget p1 "job_id" :=
    pget_pset_ne (by decide)
  have hfind2 : findIdxByField (s ++ [pset p1 "updated_at" t1]) "job_id"
      (pget p2 "job_id") = some s.length := by
    rw [hsame]
    exact findIdxByField_append_hit hfresh_id
      (by rw [hid1']; exact beq_self_eq_true _)
  have hB : upsertJob (upsertJob s p1 t1) p2 t2 =
      s ++ [applyUpdate (pset p1 "updated_at" t1)
        (pset p2 "updated_at" t2)] := by
    rw [hA, upsertJob_eq_update (by rw [hsame]; exact hid1) hfind2,
      getD_append_len, set_append_len]
  have hnd2' : NodupKeys (pset p2 "updated_at" t2) := NodupKeys_pset hnd2
  have hhk_id2 : hasKey p2 "job_id" = true :=
    hasKey_of_truthy_pget (by rw [hsame]; exact hid1)
  have hhk_jd2 : hasKey (pset p2 "updated_at" t2) "job_id" = true := by
    rw [hasKey_pset, hhk_id2]
    rfl
  have hfid : pget (applyUpdate (pset p1 "updated_at" t1)
      (pset p2 "updated_at" t2)) "job_id" = pget p1 "job_id" := by
    rw [applyUpdate_pget_present (by decide) hnd2' hhk_jd2,
      pget_pset_ne (by decide), hsame]
  refine ⟨hA, hB, ?_, ?_, ?_, ?_, ?_⟩
  · rw [hB, List.filter_append, filter_nil_of_find_none hfresh_id]
    have hfb : (pget (applyUpdate (pset p1 "updated_at" t1)
        (pset p2 "updated_at" t2)) "job_id" == pget p1 "job_id") = true := by
      rw [hfid]
      exact beq_self_eq_true _
    simp [List.filter, hfb]
  · rw [applyUpdate_pget_scraped]
    exact pget_pset_ne (by decide)
  · rw [applyUpdate_pget_present (by decide) hnd2'
      (by rw [hasKey_pset]; simp)]
    exact pget_pset_self
  · intro k hk1 hk2 hkk
    have hkjd2 : hasKey (pset p2 "updated_at" t2) k = true := by
      rw [hasKey_pset, hkk]
      rfl
    rw [applyUpdate_pget_present hk1 hnd2' hkjd2]
    exact pget_pset_ne (fun he => hk2 he.symm)
  · intro s' q t' i hq1 hq2 hq3
    rw [upsertJob_eq_update_url hq1 hq2 hq3]
    exact List.length_set ..

/-- C1 witness: the theorem at a concrete fresh store and payloads. -/
theorem c1_upsert_idempotent_witness :
    upsertJob [] p1ex (jnum 100) = [pset p1ex "updated_at" (jnum 100)] ∧
    upsertJob (upsertJob [] p1ex (jnum 100)) p2ex (jnum 200) =
      [applyUpdate (pset p1ex "updated_at" (jnum 100))
        (pset p2ex "updated_at" (jnum 200))] ∧
    ((upsertJob (upsertJob [] p1ex (jnum 100)) p2ex (jnum 200)).filter
        (fun d => pget d "job_id" == pget p1ex "job_id")).length = 1 ∧
    pget (applyUpdate (pset p1ex "updated_at" (jnum 100))
        (pset p2ex "updated_at" (jnum 200))) "scraped_at" =
      pget p1ex "scraped_at" ∧
    pget (applyUpdate (pset p1ex "updated_at" (jnum 100))
        (pset p2ex "updated_at" (jnum 200))) "updated_at" = jnum 200 ∧
    pget (applyUpdate (pset p1ex "updated_at" (jnum 100))
        (pset p2ex "updated_at" (jnum 200))) "title" = pget p2ex "title" ∧
    (upsertJob [pset p1ex "updated_at" (jnum 100)] p3ex
        (jnum 300)).length = 1 := by
  obtain ⟨hA, hB, hC, hD, hE, hF, hG⟩ :=
    c1_upsert_idempotent [] p1ex p2ex (jnum 100) (jnum 200)
      (by show (List.map Prod.fst p2ex).Nodup; decide)
      (by decide) (by decide) rfl (fun _ => rfl)
  exact ⟨by simpa using hA, by simpa using hB, by simpa using hC, hD, hE,
    hF "title" (by decide) (by decide) (by decide),
    hG [pset p1ex "updated_at" (jnum 100)] p3ex (jnum 300) 0
      (by decide) (by decide) (by decide)⟩

/-! ### C3: rejection of unidentifiable postings -/

theorem processJobs_cons_rejected {σ : Type} {upsert : σ → RawJob → σ}
    {parseIso : Str → Option Int} {role searchLocation : Str} {now : Int}
    {perRoleLimit : Nat} {job : RawJob} {rest : List RawJob} {store : σ}
    {collected : Nat}
    (h : mapJob parseIso role searchLocation now job = none) :
    processJobs upsert parseIso role searchLocation now perRoleLimit
      (job :: rest) store collected =
    processJobs upsert parseIso role searchLocation now perRoleLimit
      rest store collected := by
  simp only [processJobs]
  by_cases hskip : shouldSkipJob role
      (rOr (rget job "job_title") (rget job "title")) = true
  · rw [if_pos hskip]
  · rw [if_neg hskip, h]

/-- C3: a raw job whose mapped payload carries neither a truthy `url`
nor a truthy `job_id` is rejected before persistence: `_map_job`
returns `None`, and the per-page loop performs no upsert for it — the
store and the collected counter pass through unchanged. -/
theorem c3_reject_unidentifiable {σ : Type} (upsert : σ → RawJob → σ)
    (parseIso : Str → Option Int) (role searchLocation : Str) (now : Int)
    (perRoleLimit : Nat) (job : RawJob) (rest : List RawJob) (store : σ)
    (collected : Nat)
    (hurl : truthyR (rget (mappedFields parseIso role searchLocation now job)
      "url") = false)
    (hid : truthyR (rget (mappedFields parseIso role searchLocation now job)
      "job_id") = false) :
    mapJob parseIso role searchLocation now job = none ∧
    processJobs upsert parseIso role searchLocation now perRoleLimit
      (job :: rest) store collected =
      processJobs upsert parseIso role searchLocation now perRoleLimit
        rest store collected ∧
    processJobs upsert parseIso role searchLocation now perRoleLimit
      [job] store collected = (store, collected) := by
  have hmap : mapJob parseIso role searchLocation now job = none := by
    simp only [mapJob]
    rw [hurl, hid]
    rfl
  exact ⟨hmap, processJobs_cons_rejected hmap,
    by rw [processJobs_cons_rejected hmap]; rfl⟩

/-- C3 witness: the theorem at a concrete id- and url-free raw job. -/
theorem c3_reject_unidentifiable_witness :
    mapJob parseIsoEx (codes "Dev") [] 0 jobNoIdEx = none ∧
    processJobs upsertEx parseIsoEx (codes "Dev") [] 0 5
      [jobNoIdEx, job0ex] [] 0 =
      processJobs upsertEx parseIsoEx (codes "Dev") [] 0 5 [job0ex] [] 0 ∧
    processJobs upsertEx parseIsoEx (codes "Dev") [] 0 5
      [jobNoIdEx] [] 0 = ([], 0) :=
  c3_reject_unidentifiable upsertEx parseIsoEx (codes "Dev") [] 0 5
    jobNoIdEx [job0ex] [] 0 (by decide) (by decide)

/-! ### C6: pagination termination signals -/

/-- C6 counterexample: with a page-1 response whose metadata omits
`has_more` (and one collectable job), the role loop requests page 2 —
two `search_jobs` calls — whereas the claim says the absence of
`has_more` terminates pagination after the first call. -/
theorem c6_absent_has_more_continues :
    (collectRoleLoop upsertEx parseIsoEx (codes "Dev") [] 0 5 pagesEx
      10 1 0 0 []).2.2.2 = 2 := by decide

/-- C6 (amended): one iteration of the per-role loop terminates
pagination exactly when the page errored (authentication/retryable/
unexpected), its `data` is empty, the per-role limit is reached after
processing, or `has_more` is explicitly `false`; when `has_more` is
absent (or any non-`False` value) with non-empty data and the limit not
reached, the loop requests the next page. -/
theorem c6_pagination_termination {σ : Type} (upsert : σ → RawJob → σ)
    (parseIso : Str → Option Int) (role searchLocation : Str) (now : Int)
    (perRoleLimit : Nat) (pr : PageResult) (store : σ)
    (collected pagesFetched : Nat) :
    (pr = .authErr ∨ pr = .retryErr ∨ pr = .otherErr →
      collectStep upsert parseIso role searchLocation now perRoleLimit pr
        store collected pagesFetched = .stop store collected pagesFetched) ∧
    (∀ data hasMore, pr = .ok data hasMore →
      (data = [] →
        collectStep upsert parseIso role searchLocation now perRoleLimit pr
          store collected pagesFetched =
          .stop store collected pagesFetched) ∧
      (data ≠ [] →
        ((collectStep upsert parseIso role searchLocation now perRoleLimit
            pr store collected pagesFetched =
          .next (processJobs upsert parseIso role searchLocation now
              perRoleLimit data store collected).1
            (processJobs upsert parseIso role searchLocation now
              perRoleLimit data store collected).2 (pagesFetched + 1)) ↔
          ((processJobs upsert parseIso role searchLocation now
              perRoleLimit data store collected).2 < perRoleLimit ∧
            hasMore ≠ some false)) ∧
        ((collectStep upsert parseIso role searchLocation now perRoleLimit
            pr store collected pagesFetched =
          .stop (processJobs upsert parseIso role searchLocation now
              perRoleLimit data store collected).1
            (processJobs upsert parseIso role searchLocation now
              perRoleLimit data store collected).2 (pagesFetched + 1)) ↔
          ((processJobs upsert parseIso role searchLocation now
              perRoleLimit data store collected).2 ≥ perRoleLimit ∨
            hasMore = some false)))) := by
  constructor
  · intro h
    rcases h with h | h | h <;> rw [h] <;> rfl
  · intro data hasMore hpr
    subst hpr
    constructor
    · intro hd
      subst hd
      rfl
    · intro hd
      have hde : data.isEmpty = false := by
        cases data
        · exact absurd rfl hd
        · rfl
      constructor
      · constructor
        · intro hstep
          simp only [collectStep, hde, Bool.false_eq_true, if_false] at hstep
          by_cases hlim : (processJobs upsert parseIso role searchLocation
              now perRoleLimit data store collected).2 ≥ perRoleLimit
          · rw [if_pos hlim] at hstep
            exact absurd hstep (by simp)
          · rw [if_neg hlim] at hstep
            by_cases hm : hasMore = some false
            · rw [if_pos hm] at hstep
              exact absurd hstep (by simp)
            · exact ⟨by omega, hm⟩
        · intro ⟨hlim, hm⟩
          simp only [collectStep, hde, Bool.false_eq_true, if_false]
          rw [if_neg (by omega), if_neg hm]
      · constructor
        · intro hstep
          simp only [collectStep, hde, Bool.false_eq_true, if_false] at hstep
          by_cases hlim : (processJobs upsert parseIso role searchLocation
              now perRoleLimit data store collected).2 ≥ perRoleLimit
          · exact Or.inl hlim
          · rw [if_neg hlim] at hstep
            by_cases hm : hasMore = some false
            · exact Or.inr hm
            · rw [if_neg hm] at hstep
              exact absurd hstep (by simp)
        · intro h
          simp only [collectStep, hde, Bool.false_eq_true, if_false]
          rcases h with hlim | hm
          · rw [if_pos hlim]
          · by_cases hlim : (processJobs upsert parseIso role searchLocation
                now perRoleLimit data store collected).2 ≥ perRoleLimit
            · rw [if_pos hlim]
            · rw [if_neg hlim, if_pos hm]

/-- C6 witness: the amended theorem at a concrete page with `has_more`
absent (the loop continues) and at an authentication error (the loop
stops). -/
theorem c6_pagination_termination_witness :
    collectStep upsertEx parseIsoEx (codes "Dev") [] 0 5
      (.ok [job0ex] none) [] 0 0 =
      .next (processJobs upsertEx parseIsoEx (codes "Dev") [] 0 5
          [job0ex] [] 0).1
        (processJobs upsertEx parseIsoEx (codes "Dev") [] 0 5
          [job0ex] [] 0).2 1 ∧
    collectStep upsertEx parseIsoEx (codes "Dev") [] 0 5
      .authErr [] 0 0 = .stop [] 0 0 := by
  refine ⟨?_, ?_⟩
  · exact (((c6_pagination_termination upsertEx parseIsoEx (codes "Dev")
      [] 0 5 (.ok [job0ex] none) [] 0 0).2 [job0ex] none rfl).2
        (by decide)).1.mpr ⟨by decide, by decide⟩
  · exact (c6_pagination_termination upsertEx parseIsoEx (codes "Dev")
      [] 0 5 .authErr [] 0 0).1 (Or.inl rfl)

/-! ### C8/C10: role required skills -/

theorem contains_true_iff {l : List Str} {a : Str} :
    l.contains a = true ↔ a ∈ l := by simp

theorem mem_dedupFirstAux {x : Str} : ∀ {l seen : List Str},
    x ∈ dedupFirstAux seen l ↔ x ∈ l ∧ x ∉ seen := by
  intro l
  induction l with
  | nil => intro seen; simp [dedupFirstAux]
  | cons s rest ih =>
    intro seen
    by_cases hs : seen.contains s = true
    · simp only [dedupFirstAux, hs, if_true, ih, List.mem_cons]
      constructor
      · rintro ⟨hm, hn⟩
        exact ⟨.inr hm, hn⟩
      · rintro ⟨rfl | hm, hn⟩
        · exact absurd (contains_true_iff.mp hs) hn
        · exact ⟨hm, hn⟩
    · simp only [dedupFirstAux, hs, Bool.false_eq_true, if_false,
        List.mem_cons, ih]
      constructor
      · rintro (rfl | ⟨hm, hn⟩)
        · refine ⟨.inl rfl, fun hmem => ?_⟩
          exact hs (contains_true_iff.mpr hmem)
        · exact ⟨.inr hm, fun hmem => hn (Or.inr hmem)⟩
      · rintro ⟨rfl | hm, hn⟩
        · exact .inl rfl
        · by_cases hx : x = s
          · exact .inl hx
          · exact .inr ⟨hm, fun hor => hor.elim hx hn⟩

theorem mem_dedupFirst {x : Str} {l : List Str} :
    x ∈ dedupFirst l ↔ x ∈ l := by
  unfold dedupFirst
  rw [mem_dedupFirstAux]
  simp

theorem mem_insertDesc {x s : Str} {key : Str → Nat} :
    ∀ {l : List Str}, x ∈ insertDesc key s l ↔ x = s ∨ x ∈ l
  | [] => by simp [insertDesc]
  | y :: rest => by
    simp only [insertDesc]
    split
    · simp only [List.mem_cons]
    · simp only [List.mem_cons, mem_insertDesc (l := rest)]
      tauto

theorem mem_sortByCountDesc {x : Str} {key : Str → Nat} :
    ∀ {l : List Str}, x ∈ sortByCountDesc key l ↔ x ∈ l
  | [] => Iff.rfl
  | s :: rest => by
    simp only [sortByCountDesc, mem_insertDesc, List.mem_cons,
      mem_sortByCountDesc (l := rest)]

/-- C8: with at least one slug-bearing posting in the store, every
returned entry's `total_jobs` is the number of matched postings, its
`count` is the tag's occurrence count over those postings, its
percentage is `count / total_jobs * 100`, and it passed the threshold;
conversely every tag of the matched postings whose percentage reaches
`threshold * 100` is returned. -/
theorem c8_threshold_filtering (role : Str) (cutoff : Int) (threshold : ℚ)
    (store : List Posting)
    (hslug :
      (store.filter (fun p => !p.technology_slugs.isEmpty)).length ≠ 0) :
    (∀ e ∈ getRoleRequiredSkills role cutoff threshold store,
      e.total_jobs = (roleFilter role cutoff store).length ∧
      e.count = ((roleFilter role cutoff store).flatMap
        (·.technology_slugs)).count e.skill ∧
      e.percentage = (e.count : ℚ) / (e.total_jobs : ℚ) * 100 ∧
      threshold * 100 ≤ e.percentage) ∧
    (∀ s ∈ (roleFilter role cutoff store).flatMap (·.technology_slugs),
      threshold * 100 ≤
        (((roleFilter role cutoff store).flatMap
          (·.technology_slugs)).count s : ℚ) /
          ((roleFilter role cutoff store).length : ℚ) * 100 →
      ∃ e ∈ getRoleRequiredSkills role cutoff threshold store,
        e.skill = s) := by
  have hunfold : getRoleRequiredSkills role cutoff threshold store =
      (sortByCountDesc
        (fun s => (((roleFilter role cutoff store).flatMap
          (·.technology_slugs)).count s))
        (dedupFirst ((roleFilter role cutoff store).flatMap
          (·.technology_slugs)))).filterMap (fun s =>
        if (roleFilter role cutoff store).length = 0 then none
        else
          if threshold * 100 ≤
            (((roleFilter role cutoff store).flatMap
              (·.technology_slugs)).count s : ℚ) /
              ((roleFilter role cutoff store).length : ℚ) * 100 then
            some ⟨s, ((roleFilter role cutoff store).flatMap
                (·.technology_slugs)).count s,
              (((roleFilter role cutoff store).flatMap
                (·.technology_slugs)).count s : ℚ) /
                ((roleFilter role cutoff store).length : ℚ) * 100,
              (roleFilter role cutoff store).length⟩
          else none) := by
    simp only [getRoleRequiredSkills]
    rw [if_neg hslug]
  constructor
  · intro e he
    rw [hunfold] at he
    rcases List.mem_filterMap.mp he with ⟨s, _, hf⟩
    by_cases hT : (roleFilter role cutoff store).length = 0
    · rw [if_pos hT] at hf
      exact absurd hf (by simp)
    · rw [if_neg hT] at hf
      by_cases hth : threshold * 100 ≤
          (((roleFilter role cutoff store).flatMap
            (·.technology_slugs)).count s : ℚ) /
            ((roleFilter role cutoff store).length : ℚ) * 100
      · rw [if_pos hth] at hf
        injection hf with hf
        subst hf
        exact ⟨rfl, rfl, rfl, hth⟩
      · rw [if_neg hth] at hf
        exact absurd hf (by simp)
  · intro s hsA hth
    have hM : roleFilter role cutoff store ≠ [] := by
      intro h
      rw [h] at hsA
      exact absurd hsA (List.not_mem_nil s)
    have hT : (roleFilter role cutoff store).length ≠ 0 := by
      intro h
      exact hM (List.length_eq_zero.mp h)
    refine ⟨⟨s, ((roleFilter role cutoff store).flatMap
        (·.technology_slugs)).count s,
      (((roleFilter role cutoff store).flatMap
        (·.technology_slugs)).count s : ℚ) /
        ((roleFilter role cutoff store).length : ℚ) * 100,
      (roleFilter role cutoff store).length⟩, ?_, rfl⟩
    rw [hunfold]
    refine List.mem_filterMap.mpr ⟨s, ?_, ?_⟩
    · exact mem_sortByCountDesc.mpr (mem_dedupFirst.mpr hsA)
    · rw [if_neg hT, if_pos hth]

/-- C8 witness: the claim's concrete instance — percentages
`{a: 80%, b: 20%}` with `threshold = 1/4` retain exactly `a` — plus the
theorem's completeness direction at tag `a`. -/
theorem c8_threshold_filtering_witness :
    getRoleRequiredSkills (codes "dev") 0 (1/4) st8 =
      [⟨codes "a", 4, 80, 5⟩] ∧
    (∃ e ∈ getRoleRequiredSkills (codes "dev") 0 (1/4) st8,
      e.skill = codes "a") := by
  have hlen : ¬((st8.filter
      (fun p => !p.technology_slugs.isEmpty)).length = 0) := by decide
  have hslugs : sortByCountDesc
      (fun s => (((roleFilter (codes "dev") 0 st8).flatMap
        (·.technology_slugs)).count s))
      (dedupFirst ((roleFilter (codes "dev") 0 st8).flatMap
        (·.technology_slugs))) = [codes "a", codes "b"] := by decide
  have hT : (roleFilter (codes "dev") 0 st8).length = 5 := by decide
  have hca : ((roleFilter (codes "dev") 0 st8).flatMap
      (·.technology_slugs)).count (codes "a") = 4 := by decide
  have hcb : ((roleFilter (codes "dev") 0 st8).flatMap
      (·.technology_slugs)).count (codes "b") = 1 := by decide
  have hth : ((1 : ℚ)/4) * 100 ≤
      (((roleFilter (codes "dev") 0 st8).flatMap
        (·.technology_slugs)).count (codes "a") : ℚ) /
        ((roleFilter (codes "dev") 0 st8).length : ℚ) * 100 := by
    rw [hca, hT]
    norm_num
  constructor
  · simp only [getRoleRequiredSkills]
    rw [if_neg hlen, hslugs]
    simp only [List.filterMap_cons, List.filterMap_nil]
    rw [hT, hca, hcb]
    norm_num
  · exact (c8_threshold_filtering (codes "dev") 0 (1/4) st8 (by decide)).2
      (codes "a") (by decide) hth

/-- C10: when no posting anywhere in the store has a non-empty
`technology_slugs`, `get_role_required_skills` returns the empty list,
regardless of how many postings match the role and window. -/
theorem c10_global_slug_guard (role : Str) (cutoff : Int) (threshold : ℚ)
    (store : List Posting) (h : ∀ p ∈ store, p.technology_slugs = []) :
    getRoleRequiredSkills role cutoff threshold store = [] := by
  unfold getRoleRequiredSkills
  rw [if_pos]
  rw [List.length_eq_zero, List.filter_eq_nil_iff]
  intro p hp
  rw [h p hp]
  simp

/-- C10 witness: the theorem at a store whose only posting matches the
role and window but carries no technology slugs. -/
theorem c10_global_slug_guard_witness :
    getRoleRequiredSkills (codes "dev") 0 (1/4) st10 = [] ∧
    (roleFilter (codes "dev") 0 st10).length = 1 :=
  ⟨c10_global_slug_guard (codes "dev") 0 (1/4) st10 (by decide), by decide⟩

/-! ### C9: skill-gap coverage arithmetic -/

/-- C9: for a non-empty required list, `compute_user_coverage` returns
one gap item per required skill in order, `skill_match_count` counts the
matched items, `coverage = skill_match_count / total * 100`, the missing
list holds exactly the unmatched (normalized) skill names, and an item
matches exactly when some user skill equals it after lower-casing and
stripping; the empty required list yields the explicit all-empty
result. -/
theorem c9_skill_gap_coverage (userSkills : List Str)
    (requiredSkills : List ReqSkill) (hne : requiredSkills ≠ []) :
    (computeUserCoverage userSkills requiredSkills).total_skills =
      requiredSkills.length ∧
    (computeUserCoverage userSkills requiredSkills).skill_gap_items =
      requiredSkills.map (reqItem (normUserSkills userSkills)) ∧
    (computeUserCoverage userSkills requiredSkills).skills_have =
      ((requiredSkills.map (reqItem (normUserSkills userSkills))).filter
        (·.user_has)).length ∧
    (computeUserCoverage userSkills requiredSkills).coverage =
      ((computeUserCoverage userSkills requiredSkills).skills_have : ℚ) /
        (requiredSkills.length : ℚ) * 100 ∧
    (computeUserCoverage userSkills requiredSkills).missing_skills =
      ((requiredSkills.map (reqItem (normUserSkills userSkills))).filter
        (fun i => !i.user_has)).map (·.skill) ∧
    (∀ r : ReqSkill,
      ((reqItem (normUserSkills userSkills) r).user_has = true ↔
        ∃ s ∈ userSkills, (!s.isEmpty && !(pyStrip s).isEmpty) = true ∧
          pyLower (pyStrip (pyLower s)) = reqSkillName r)) ∧
    computeUserCoverage userSkills [] = ⟨[], [], 0, 0, 0⟩ := by
  have hne' : requiredSkills.isEmpty = false := by
    cases requiredSkills
    · exact absurd rfl hne
    · rfl
  have hpos : 0 < requiredSkills.length := by
    cases requiredSkills
    · exact absurd rfl hne
    · simp
  have hc : computeUserCoverage userSkills requiredSkills =
      ⟨requiredSkills.map (reqItem (normUserSkills userSkills)),
       ((requiredSkills.map (reqItem (normUserSkills userSkills))).filter
         (fun i => !i.user_has)).map (·.skill),
       (if 0 < requiredSkills.length then
         (((requiredSkills.map (reqItem (normUserSkills userSkills))).filter
           (·.user_has)).length : ℚ) / (requiredSkills.length : ℚ) * 100
        else 0),
       ((requiredSkills.map (reqItem (normUserSkills userSkills))).filter
         (·.user_has)).length,
       requiredSkills.length⟩ := by
    simp only [computeUserCoverage, hne', Bool.false_eq_true, if_false]
  refine ⟨by rw [hc], by rw [hc], by rw [hc], ?_, by rw [hc], ?_, rfl⟩
  · rw [hc]
    show (if 0 < requiredSkills.length then _ else 0) = _
    rw [if_pos hpos]
  · intro r
    simp only [reqItem]
    rw [List.any_eq_true]
    constructor
    · rintro ⟨u, hu, hbeq⟩
      rcases List.mem_map.mp hu with ⟨s, hs, rfl⟩
      rcases List.mem_filter.mp hs with ⟨hs1, hs2⟩
      exact ⟨s, hs1, hs2, eq_of_beq hbeq⟩
    · rintro ⟨s, hs, hcond, heq⟩
      exact ⟨pyStrip (pyLower s),
        List.mem_map.mpr ⟨s, List.mem_filter.mpr ⟨hs, hcond⟩, rfl⟩,
        beq_iff_eq.mpr heq⟩

/-- C9 witness: four required skills of which the user has three
(case-insensitively): coverage 75, `skill_match_count = 3`, one missing
skill. -/
theorem c9_skill_gap_coverage_witness :
    (computeUserCoverage user9 req9).skill_gap_items =
      [⟨codes "a", 50, true⟩, ⟨codes "b", 50, true⟩,
       ⟨codes "c", 50, true⟩, ⟨codes "d", 50, false⟩] ∧
    (computeUserCoverage user9 req9).missing_skills = [codes "d"] ∧
    (computeUserCoverage user9 req9).skills_have = 3 ∧
    (computeUserCoverage user9 req9).total_skills = 4 ∧
    (computeUserCoverage user9 req9).coverage = 75 ∧
    ((reqItem (normUserSkills user9) ⟨codes "d", none, 50⟩).user_has = true ↔
      ∃ s ∈ user9, (!s.isEmpty && !(pyStrip s).isEmpty) = true ∧
        pyLower (pyStrip (pyLower s)) =
          reqSkillName ⟨codes "d", none, 50⟩) ∧
    computeUserCoverage user9 [] = ⟨[], [], 0, 0, 0⟩ := by
  obtain ⟨_, _, _, h4, _, h6, h7⟩ :=
    c9_skill_gap_coverage user9 req9 (by decide)
  have hh : (computeUserCoverage user9 req9).skills_have = 3 := by decide
  have hl : req9.length = 4 := by decide
  refine ⟨by decide, by decide, hh, by decide, ?_,
    h6 ⟨codes "d", none, 50⟩, h7⟩
  rw [h4, hh, hl]
  norm_num

/-! ### Decidable facts about the static tables -/

set_option maxRecDepth 100000 in
theorem techVals_fixed :
    TECHNOLOGY_SLUG_MAP.all
      (fun p => mapSlug (canonPass p.2) == some (canonPass p.2)) = true := by
  decide

set_option maxRecDepth 100000 in
theorem canonVals_fixed :
    SKILL_CANONICAL_MAP.all (fun p => mapSlug p.2 == some p.2) = true := by
  decide

set_option maxRecDepth 100000 in
theorem tech_keys_no_space :
    TECHNOLOGY_SLUG_MAP.all (fun p => decide (32 ∉ p.1)) = true := by
  decide

set_option maxRecDepth 100000 in
theorem techVals_ne_nil :
    TECHNOLOGY_SLUG_MAP.all (fun p => !p.2.isEmpty) = true := by decide

theorem canonVals_ne_nil :
    SKILL_CANONICAL_MAP.all (fun p => !p.2.isEmpty) = true := by decide

theorem lookupTable_mem : ∀ {tbl : List (Str × Str)} {k v : Str},
    lookupTable tbl k = some v → (k, v) ∈ tbl
  | [], _, _, h => by simp [lookupTable] at h
  | p :: rest, k, v, h => by
    simp only [lookupTable] at h
    split at h
    · rename_i hbeq
      have hk : p.1 = k := eq_of_beq hbeq
      injection h with hv
      exact List.mem_cons.mpr (Or.inl (by rw [← hk, ← hv]))
    · exact List.mem_cons_of_mem _ (lookupTable_mem h)

theorem lookupTable_eq_none : ∀ {tbl : List (Str × Str)} {k : Str},
    (∀ p ∈ tbl, p.1 ≠ k) → lookupTable tbl k = none
  | [], _, _ => rfl
  | p :: rest, k, h => by
    simp only [lookupTable]
    rw [if_neg, lookupTable_eq_none (fun q hq => h q (List.mem_cons_of_mem _ hq))]
    intro hbeq
    exact h p (List.mem_cons_self ..) (eq_of_beq hbeq)

/-! ### Separator replacement -/

theorem of_map_id {α : Type} {f : α → α} :
    ∀ {l : List α}, l.map f = l → ∀ c ∈ l, f c = c
  | [], _, c, hc => absurd hc (List.not_mem_nil c)
  | a :: l, h, c, hc => by
    rw [List.map_cons] at h
    injection h with h1 h2
    rcases List.mem_cons.mp hc with rfl | hc'
    · exact h1
    · exact of_map_id h2 c hc'

theorem sepToSpace_idem (s : Str) : sepToSpace (sepToSpace s) = sepToSpace s := by
  unfold sepToSpace
  rw [List.map_map]
  apply List.map_congr_left
  intro c _
  by_cases h : isSep c = true
  · simp [Function.comp, h]
  · have hb : isSep c = false := by
      cases hb : isSep c
      · rfl
      · exact absurd hb h
    simp [Function.comp, hb]

theorem mem_of_sepToSpace_ne {n : Str} (h : sepToSpace n ≠ n) :
    32 ∈ sepToSpace n := by
  by_cases hall : ∀ c ∈ n, isSep c = false
  · exact absurd
      (map_id_of_mem (fun c hc => by rw [hall c hc]; rfl)) h
  · push_neg at hall
    obtain ⟨c, hc, hsep⟩ := hall
    have hsep' : isSep c = true := by
      cases hb : isSep c
      · exact absurd hb hsep
      · rfl
    have h32 : (fun c => if isSep c then 32 else c) c = 32 := by
      show (if isSep c = true then 32 else c) = 32
      rw [hsep']
      simp
    rw [← h32]
    exact List.mem_map_of_mem _ hc

theorem sepToSpace_ne_nil {n : Str} (h : n ≠ []) : sepToSpace n ≠ [] := by
  unfold sepToSpace
  simpa using h

/-! ### Every value produced by `mapSlug` is a fixed point of the pipeline
(given the edge-cleanliness side condition) -/

theorem canonPass_ne_nil {x : Str} (h : x ≠ []) : canonPass x ≠ [] := by
  unfold canonPass
  cases hc : lookupTable SKILL_CANONICAL_MAP x with
  | none => exact h
  | some w =>
    have := List.all_eq_true.mp canonVals_ne_nil _ (lookupTable_mem hc)
    simp only [Bool.not_eq_true'] at this
    simpa [List.isEmpty_iff] using this

theorem slugCanonical_ne_nil {n : Str} (h : n ≠ []) : slugCanonical n ≠ [] := by
  unfold slugCanonical
  cases hc : lookupTable TECHNOLOGY_SLUG_MAP n with
  | none => exact sepToSpace_ne_nil h
  | some v =>
    have := List.all_eq_true.mp techVals_ne_nil _ (lookupTable_mem hc)
    simp only [Bool.not_eq_true'] at this
    simpa [List.isEmpty_iff] using this

theorem mapSlug_some_ne_nil {s y : Str} (h : mapSlug s = some y) : y ≠ [] := by
  unfold mapSlug at h
  split at h
  · exact absurd h (by simp)
  · split at h
    · exact absurd h (by simp)
    · rename_i h2
      injection h with h'
      rw [← h']
      apply canonPass_ne_nil
      apply slugCanonical_ne_nil
      simpa [List.isEmpty_iff] using h2

theorem fallback_fixed {n : Str} (hne : n ≠ [])
    (hlow : pyLower n = n)
    (hhWs : ∀ c, n.head? = some c → isWs c = false)
    (hlWs : ∀ c, n.getLast? = some c → isWs c = false)
    (hhSep : ∀ c, n.head? = some c → isSep c = false)
    (hlSep : ∀ c, n.getLast? = some c → isSep c = false)
    (hTech : lookupTable TECHNOLOGY_SLUG_MAP n = none)
    (hCanon : lookupTable SKILL_CANONICAL_MAP (sepToSpace n) = none) :
    mapSlug (sepToSpace n) = some (sepToSpace n) := by
  have htne : sepToSpace n ≠ [] := sepToSpace_ne_nil hne
  have hstrip : pyStrip (sepToSpace n) = sepToSpace n := by
    apply pyStrip_eq_self
    · intro c hc
      rw [show sepToSpace n = n.map (fun c => if isSep c then 32 else c) from rfl,
        List.head?_map] at hc
      cases hh : n.head? with
      | none => rw [hh] at hc; exact absurd hc (by simp)
      | some d =>
        rw [hh] at hc
        simp only [Option.map_some'] at hc
        injection hc with hc'
        rw [← hc', hhSep d hh]
        exact hhWs d hh
    · intro c hc
      rw [show sepToSpace n = n.map (fun c => if isSep c then 32 else c) from rfl,
        List.getLast?_map] at hc
      cases hh : n.getLast? with
      | none => rw [hh] at hc; exact absurd hc (by simp)
      | some d =>
        rw [hh] at hc
        simp only [Option.map_some'] at hc
        injection hc with hc'
        rw [← hc', hlSep d hh]
        exact hlWs d hh
  have hlow_t : pyLower (sepToSpace n) = sepToSpace n := by
    apply map_id_of_mem
    intro c hc
    rcases List.mem_map.mp hc with ⟨d, hd, rfl⟩
    by_cases hsep : isSep d = true
    · have he : (if isSep d = true then 32 else d) = 32 := by simp [hsep]
      show lowerCode (if isSep d = true then 32 else d) =
        (if isSep d = true then 32 else d)
      rw [he]
      decide
    · have hb : isSep d = false := by
        cases hb : isSep d
        · rfl
        · exact absurd hb hsep
      have he : (if isSep d = true then 32 else d) = d := by simp [hb]
      show lowerCode (if isSep d = true then 32 else d) =
        (if isSep d = true then 32 else d)
      rw [he]
      exact of_map_id hlow d hd
  have htech_t : lookupTable TECHNOLOGY_SLUG_MAP (sepToSpace n) = none := by
    by_cases heq : sepToSpace n = n
    · rw [heq]
      exact hTech
    · have h32 : 32 ∈ sepToSpace n := mem_of_sepToSpace_ne heq
      apply lookupTable_eq_none
      intro p hp he
      have hns := List.all_eq_true.mp tech_keys_no_space p hp
      rw [he] at hns
      exact (of_decide_eq_true hns) h32
  unfold mapSlug
  rw [hstrip, hlow_t]
  rw [if_neg (by simp [List.isEmpty_iff, htne]),
    if_neg (by simp [List.isEmpty_iff, htne])]
  unfold slugCanonical
  rw [htech_t]
  rw [sepToSpace_idem]
  unfold canonPass
  rw [hCanon]

theorem mapSlug_fixed {slug y : Str} (hE : edgeOk slug = true)
    (hy : mapSlug slug = some y) : mapSlug y = some y := by
  unfold mapSlug at hy
  unfold edgeOk at hE
  by_cases h1 : slug.isEmpty = true
  · rw [if_pos h1] at hy
    exact absurd hy (by simp)
  rw [if_neg h1] at hy
  by_cases h2 : (pyLower (pyStrip slug)).isEmpty = true
  · rw [if_pos h2] at hy
    exact absurd hy (by simp)
  rw [if_neg h2] at hy
  set n := pyLower (pyStrip slug) with hn
  have hy' : y = canonPass (slugCanonical n) := by
    injection hy with h
    exact h.symm
  cases htech : lookupTable TECHNOLOGY_SLUG_MAP n with
  | some v =>
    have hfix := List.all_eq_true.mp techVals_fixed _ (lookupTable_mem htech)
    rw [hy']
    unfold slugCanonical
    rw [htech]
    exact eq_of_beq hfix
  | none =>
    have hsc : slugCanonical n = sepToSpace n := by
      unfold slugCanonical
      rw [htech]
    cases hcanon : lookupTable SKILL_CANONICAL_MAP (sepToSpace n) with
    | some w =>
      have hb := List.all_eq_true.mp canonVals_fixed _ (lookupTable_mem hcanon)
      have hw : canonPass (sepToSpace n) = w := by
        unfold canonPass
        rw [hcanon]
      rw [hy', hsc, hw]
      exact eq_of_beq hb
    | none =>
      have hcp : canonPass (sepToSpace n) = sepToSpace n := by
        unfold canonPass
        rw [hcanon]
      rw [hy', hsc, hcp]
      apply fallback_fixed
      · simpa [List.isEmpty_iff] using h2
      · rw [hn]
        exact pyLower_idem _
      · intro c hc
        rw [hn, show pyLower (pyStrip slug) = (pyStrip slug).map lowerCode from rfl,
          List.head?_map] at hc
        cases hh : (pyStrip slug).head? with
        | none => rw [hh] at hc; exact absurd hc (by simp)
        | some d =>
          rw [hh] at hc
          simp only [Option.map_some'] at hc
          injection hc with hc'
          rw [← hc']
          exact isWs_lowerCode_false (pyStrip_head_not_ws hh)
      · intro c hc
        rw [hn, show pyLower (pyStrip slug) = (pyStrip slug).map lowerCode from rfl,
          List.getLast?_map] at hc
        cases hh : (pyStrip slug).getLast? with
        | none => rw [hh] at hc; exact absurd hc (by simp)
        | some d =>
          rw [hh] at hc
          simp only [Option.map_some'] at hc
          injection hc with hc'
          rw [← hc']
          exact isWs_lowerCode_false (pyStrip_last_not_ws hh)
      · intro c hc
        have hE1 := (Bool.and_eq_true _ _ |>.mp hE).1
        rw [hc] at hE1
        simpa using hE1
      · intro c hc
        have hE2 := (Bool.and_eq_true _ _ |>.mp hE).2
        rw [hc] at hE2
        simpa using hE2
      · exact htech
      · exact hcanon

theorem filterMap_mapSlug_fixed :
    ∀ {l : List Str}, (∀ y ∈ l, mapSlug y = some y) →
      l.filterMap mapSlug = l
  | [], _ => rfl
  | a :: l, h => by
    rw [List.filterMap_cons, h a (List.mem_cons_self ..)]
    rw [filterMap_mapSlug_fixed (fun y hy => h y (List.mem_cons_of_mem _ hy))]

theorem mem_mapTechnologySlugs {x : List Str} {y : Str}
    (hy : y ∈ mapTechnologySlugs x) : ∃ s ∈ x, mapSlug s = some y := by
  unfold mapTechnologySlugs at hy
  split at hy
  · exact absurd hy (List.not_mem_nil y)
  · exact List.mem_filterMap.mp (mem_sortDedup.mp hy)

theorem mapTechnologySlugs_of_fixed {l : List Str} (hs : StrictSorted l)
    (hfix : ∀ y ∈ l, mapSlug y = some y) : mapTechnologySlugs l = l := by
  unfold mapTechnologySlugs
  split
  · rename_i he
    exact (by simpa [List.isEmpty_iff] using he : l = []).symm
  · rw [filterMap_mapSlug_fixed hfix, sortDedup_eq_self hs]

/-- C7 (amended): `map_technology_slugs` always returns a strictly
sorted, duplicate-free list that never contains the empty string, and
the pipeline is idempotent on every input whose slugs are edge-clean
(the trimmed lower-cased form of each slug neither begins nor ends with
`'-'` or `'_'`); unrestricted idempotence fails on slugs with such edge
separators. -/
theorem c7_normalizer_pipeline (x : List Str) :
    StrictSorted (mapTechnologySlugs x) ∧
    (mapTechnologySlugs x).Nodup ∧
    [] ∉ mapTechnologySlugs x ∧
    ((∀ s ∈ x, edgeOk s = true) →
      mapTechnologySlugs (mapTechnologySlugs x) = mapTechnologySlugs x) := by
  have hsorted : StrictSorted (mapTechnologySlugs x) := by
    unfold mapTechnologySlugs
    split
    · exact List.chain'_nil
    · exact sorted_sortDedup _
  have hnil : [] ∉ mapTechnologySlugs x := by
    intro hmem
    obtain ⟨s, _, hs⟩ := mem_mapTechnologySlugs hmem
    exact mapSlug_some_ne_nil hs rfl
  refine ⟨hsorted, nodup_of_sorted hsorted, hnil, ?_⟩
  intro hedge
  apply mapTechnologySlugs_of_fixed hsorted
  intro y hy
  obtain ⟨s, hsx, hs⟩ := mem_mapTechnologySlugs hy
  exact mapSlug_fixed (hedge s hsx) hs

/-- C7 counterexample: the claim's unrestricted idempotence is false.
The slug `"-"` maps to the single-space string (separators are replaced
by spaces after stripping), and feeding that output back drops it as
blank: `normalize(normalize(["-"])) = [] ≠ [" "] = normalize(["-"])`. -/
theorem c7_normalizer_not_idempotent :
    mapTechnologySlugs (mapTechnologySlugs [codes "-"]) ≠
      mapTechnologySlugs [codes "-"] := by decide

/-- C7 witness: the amended theorem applied to the concrete input
`["ReactJS", "ml"]`, whose slugs are edge-clean. -/
theorem c7_normalizer_pipeline_witness :
    StrictSorted (mapTechnologySlugs [codes "ReactJS", codes "ml"]) ∧
    (mapTechnologySlugs [codes "ReactJS", codes "ml"]).Nodup ∧
    [] ∉ mapTechnologySlugs [codes "ReactJS", codes "ml"] ∧
    mapTechnologySlugs (mapTechnologySlugs [codes "ReactJS", codes "ml"]) =
      mapTechnologySlugs [codes "ReactJS", codes "ml"] := by
  obtain ⟨h1, h2, h3, h4⟩ := c7_normalizer_pipeline [codes "ReactJS", codes "ml"]
  exact ⟨h1, h2, h3, h4 (by decide)⟩

end CareerNav

